import Mathlib

/-!
Shallow embedding of the synchronization and state-reconciliation engine of
the `orchestrator` repository (src/sync/mod.rs, src/state/mod.rs,
src/drive/mod.rs, src/classifier/mod.rs, src/config/mod.rs), together with
theorems settling the frozen claims about it.

Modelling conventions:
* Rust `PathBuf` is modelled by `FPath`: an absoluteness flag plus the list
  of components.  `FPath.join` follows Rust `Path::join` (an absolute
  argument replaces the base), `stripPre` follows `Path::strip_prefix`,
  `FPath.parent` follows `Path::parent`, and `extOfPath` follows
  `Path::extension`.
* The sled database is modelled by an association list from key strings to
  stored values; `StoreVal.corrupt` stands for a stored byte string that
  fails to decode (`serde_json::from_slice` returning `Err`).  sled
  iterates keys in sorted order; the model keeps insertion order, which is
  immaterial to every property proved here (none depends on scan order).
* File-system reads, device enumeration and the clock are an explicit
  environment `Env`; directory copies and directory creation are recorded
  as an `Effect` trace so that theorems can speak about which I/O the
  engine performs.
* Fallible Rust functions returning `Result` become `Except String`.
-/

/-! ### String helpers (ASCII case folding and substring search) -/

/-- `leadsWith n h` is true when the list `n` is an initial segment of `h`
(the comparison Rust's `str::starts_with` performs on characters). -/
def leadsWith : List Char → List Char → Bool
  | [], _ => true
  | _ :: _, [] => false
  | a :: as, b :: bs => a = b && leadsWith as bs

/-- `hasSubList n h`: `n` occurs as a contiguous sublist of `h`
(Rust `str::contains`). -/
def hasSubList (n : List Char) : List Char → Bool
  | [] => n.isEmpty
  | c :: t => leadsWith n (c :: t) || hasSubList n t

/-- Rust `haystack.contains(needle)` on the underlying characters. -/
def containsStr (hay pat : String) : Bool :=
  hasSubList pat.data hay.data

/-- Rust `str::to_lowercase` (ASCII range, which is all the engine uses). -/
def lowerStr (s : String) : String :=
  ⟨s.data.map Char.toLower⟩

/-- `startsWithStr s pre`: Rust `str::starts_with`, used for key scans. -/
def startsWithStr (s pre : String) : Bool :=
  leadsWith pre.data s.data

/-! ### Paths -/

/-- Model of Rust `PathBuf`: whether the path is absolute, and its
components in order. -/
structure FPath where
  abs : Bool
  comps : List String
  deriving DecidableEq, Repr

namespace FPath

/-- Rendering used by `path.display()` when paths are turned into store
keys (POSIX separators). -/
def joinComps : List String → String
  | [] => ""
  | [a] => a
  | a :: rest => a ++ "/" ++ joinComps rest

def display (p : FPath) : String :=
  (if p.abs then "/" else "") ++ joinComps p.comps

/-- Rust `Path::join`: an absolute right argument replaces the base. -/
def join (p q : FPath) : FPath :=
  if q.abs then q else ⟨p.abs, p.comps ++ q.comps⟩

/-- `Path::join` with a plain (relative, single-component) string, the way
the engine joins the category directory name. -/
def joinS (p : FPath) (s : String) : FPath :=
  ⟨p.abs, p.comps ++ [s]⟩

/-- Rust `Path::parent`: drop the last component; `none` at a root. -/
def parent (p : FPath) : Option FPath :=
  match p.comps with
  | [] => none
  | _ => some ⟨p.abs, p.comps.dropLast⟩

end FPath

/-- Rust `Path::strip_prefix` (component-wise; `none` models `Err`). -/
def stripPre (p root : FPath) : Option FPath :=
  if p.abs = root.abs ∧ root.comps.isPrefixOf p.comps then
    some ⟨false, p.comps.drop root.comps.length⟩
  else none

/-- Portion of a file name after its last dot (helper for `extOfPath`). -/
def extAux : List Char → Option (List Char)
  | [] => none
  | '.' :: t =>
    match extAux t with
    | some e => some e
    | none => some t
  | _ :: t => extAux t

/-- Rust `Path::extension` on a file name: `none` when there is no dot or
when the only dot is the leading one of a hidden file. -/
def extOfName (s : String) : Option String :=
  match s.data with
  | [] => none
  | c :: rest =>
    (extAux (if c = '.' then rest else c :: rest)).map fun e => ⟨e⟩

/-- Rust `Path::extension`: extension of the last component. -/
def extOfPath (p : FPath) : Option String :=
  match p.comps.getLast? with
  | none => none
  | some name => extOfName name

/-! ### Classifier (src/classifier/mod.rs) -/

inductive FileType where
  | image
  | video
  | audio
  | document
  | archive
  | unknown
  deriving DecidableEq, Repr

/-- `FileType::as_str`. -/
def FileType.as_str : FileType → String
  | .image => "images"
  | .video => "videos"
  | .audio => "music"
  | .document => "documents"
  | .archive => "archives"
  | .unknown => "unknown"

/-- What one observes about a source file: its metadata/content
readability, size, BLAKE3 hex digest of the current bytes, the mime type
`infer` derives from its magic bytes (when any). -/
structure FileEntry where
  size : Nat
  hash : String
  magicMime : Option String
  contentReadable : Bool
  metaReadable : Bool
  deriving DecidableEq, Repr

/-- The mime-to-category cascade inside `classify_by_content`
(src/classifier/mod.rs lines 36-54); `none` means the mime matched no
branch and control falls through to extension classification. -/
def mimeToType (mime : String) : Option FileType :=
  if startsWithStr mime "image/" then some .image
  else if startsWithStr mime "video/" then some .video
  else if startsWithStr mime "audio/" then some .audio
  else if mime = "application/pdf" ∨ containsStr mime "word" = true
      ∨ containsStr mime "document" = true ∨ containsStr mime "text" = true then
    some .document
  else if containsStr mime "zip" = true ∨ containsStr mime "rar" = true
      ∨ containsStr mime "archive" = true ∨ containsStr mime "compressed" = true then
    some .archive
  else none

/-- The extension table of `classify_by_extension` (already lowercased). -/
def extToType (e : String) : FileType :=
  if e ∈ ["jpg", "jpeg", "png", "gif", "bmp", "webp", "svg", "ico", "tiff", "tif"] then
    .image
  else if e ∈ ["mp4", "avi", "mov", "mkv", "flv", "wmv", "webm", "m4v", "mpg", "mpeg"] then
    .video
  else if e ∈ ["mp3", "wav", "flac", "aac", "ogg", "m4a", "wma", "opus", "alac"] then
    .audio
  else if e ∈ ["pdf", "doc", "docx", "txt", "rtf", "odt", "xlsx", "xls", "pptx", "ppt"] then
    .document
  else if e ∈ ["zip", "rar", "7z", "tar", "gz", "bz2", "xz", "iso"] then
    .archive
  else .unknown

/-- `FileClassifier::classify_by_extension`: errors when the path has no
extension, otherwise looks the lowercased extension up in the table. -/
def classify_by_extension (p : FPath) : Except String FileType :=
  match extOfPath p with
  | none => .error "No file extension"
  | some e => .ok (extToType (lowerStr e))

/-- `FileClassifier::classify_by_content`: magic-byte inference first
(an unreadable file is an error), falling back to the extension. -/
def classify_by_content (p : FPath) (entry : FileEntry) : Except String FileType :=
  if entry.contentReadable = false then
    .error "Failed to read file"
  else
    match entry.magicMime with
    | some mime =>
      match mimeToType mime with
      | some t => .ok t
      | none => classify_by_extension p
    | none => classify_by_extension p

structure FileInfo where
  path : FPath
  size : Nat
  file_type : FileType
  extension : Option String
  deriving DecidableEq, Repr

/-- `FileClassifier::get_file_info`: fails only when metadata is
unreadable; classification failures are absorbed by the
`unwrap_or_else`/`unwrap_or` chain ending in `FileType::Unknown`. -/
def get_file_info (p : FPath) (entry : FileEntry) : Except String FileInfo :=
  if entry.metaReadable = false then
    .error "Failed to read metadata"
  else
    .ok { path := p
          size := entry.size
          file_type :=
            ((classify_by_content p entry).toOption.getD
              ((classify_by_extension p).toOption.getD .unknown))
          extension := (extOfPath p).map lowerStr }

/-! ### Drive detector (src/drive/mod.rs) -/

/-- `DriveInfo` as produced by `DriveDetector::get_all_drives`. -/
structure DriveInfo where
  name : String
  mount_point : FPath
  total_space : Nat
  available_space : Nat
  file_system : String
  removable : Bool
  deriving DecidableEq, Repr

/-- `DriveDetector::is_drive_connected`: some enumerated disk reports
exactly this mount point. -/
def is_drive_connected (disks : List DriveInfo) (mount : FPath) : Bool :=
  disks.any fun d => decide (d.mount_point = mount)

/-- The matching predicate inside `DriveDetector::find_drive_by_label`
(src/drive/mod.rs lines 70-73): the lowercased NAME or the lowercased
MOUNT-POINT string contains the lowercased label. -/
def labelMatches (label_lower : String) (d : DriveInfo) : Bool :=
  containsStr (lowerStr d.name) label_lower
    || containsStr (lowerStr d.mount_point.display) label_lower

/-- `DriveDetector::find_drive_by_label`: first enumerated drive whose
name or mount-point string contains the label, case-insensitively. -/
def find_drive_by_label (disks : List DriveInfo) (label : String) : Option DriveInfo :=
  disks.find? (labelMatches (lowerStr label))

/-! ### Configuration (src/config/mod.rs) -/

structure DriveConfig where
  label : String
  target : String
  path : Option FPath
  last_seen : Option String
  deriving DecidableEq, Repr

structure SourceConfig where
  path : FPath
  deriving DecidableEq, Repr

/-- The configuration as the engine consumes it.  Rust stores routes in a
`HashMap<String, DriveConfig>`; the model keys them as an association list
(iteration order of the map is unspecified in Rust as well). -/
structure Config where
  source : SourceConfig
  drives : List (String × DriveConfig)
  deriving DecidableEq, Repr

/-- `Config::find_drive_for_category`: first route whose target equals the
category. -/
def Config.find_drive_for_category (c : Config) (category : String) :
    Option (String × DriveConfig) :=
  c.drives.find? fun kv => decide (kv.2.target = category)

/-! ### State store records (src/state/mod.rs) -/

structure FileState where
  source_path : FPath
  hash : String
  size : Nat
  last_synced : Nat
  target_drive : String
  target_path : FPath
  file_category : String
  deriving DecidableEq, Repr

structure PendingSync where
  source_path : FPath
  file_category : String
  target_drive : String
  hash : String
  size : Nat
  created_at : Nat
  deriving DecidableEq, Repr

/-- A value stored in the sled database: a JSON-encoded `FileState`, a
JSON-encoded `PendingSync`, or bytes that fail to decode as either. -/
inductive StoreVal where
  | fileVal (s : FileState)
  | pendingVal (p : PendingSync)
  | corrupt
  deriving DecidableEq, Repr

/-- `serde_json::from_slice::<FileState>`. -/
def decodeFile : StoreVal → Except String FileState
  | .fileVal s => .ok s
  | _ => .error "failed to decode FileState"

/-- `serde_json::from_slice::<PendingSync>`. -/
def decodePending : StoreVal → Except String PendingSync
  | .pendingVal p => .ok p
  | _ => .error "failed to decode PendingSync"

/-- The sled database: keys to stored values, unique keys. -/
abbrev Store := List (String × StoreVal)

/-- `StateManager::file_key`. -/
def file_key (p : FPath) : String := "file:" ++ p.display

/-- `StateManager::pending_key`. -/
def pending_key (p : FPath) : String := "pending:" ++ p.display

/-- `sled::Db::get`. -/
def lookupS (k : String) : Store → Option StoreVal
  | [] => none
  | kv :: t => if kv.1 = k then some kv.2 else lookupS k t

/-- `sled::Db::insert`: upsert keyed by `k`. -/
def insertS (k : String) (v : StoreVal) : Store → Store
  | [] => [(k, v)]
  | kv :: t => if kv.1 = k then (k, v) :: t else kv :: insertS k v t

/-- `sled::Db::remove`: drop the entry keyed by `k` if present. -/
def removeS (k : String) : Store → Store
  | [] => []
  | kv :: t => if kv.1 = k then t else kv :: removeS k t

/-- `sled::Db::scan_prefix`: all entries whose key starts with `pre`. -/
def scanPre (pre : String) (st : Store) : Store :=
  st.filter fun kv => startsWithStr kv.1 pre

/-- Number of records stored under key `k`. -/
def countKey (k : String) : Store → Nat
  | [] => 0
  | kv :: t => (if kv.1 = k then 1 else 0) + countKey k t

/-- The store never holds two records under one key (sled is a map). -/
abbrev NodupK (st : Store) : Prop := (st.map Prod.fst).Nodup

/-! ### State manager operations (src/state/mod.rs) -/

/-- `StateManager::save_file_state`. -/
def save_file_state (st : Store) (s : FileState) : Store :=
  insertS (file_key s.source_path) (.fileVal s) st

/-- `StateManager::get_file_state`: a stored value that fails to decode
surfaces as an error (the `?` on `serde_json::from_slice`). -/
def get_file_state (st : Store) (p : FPath) : Except String (Option FileState) :=
  match lookupS (file_key p) st with
  | none => .ok none
  | some v =>
    match decodeFile v with
    | .error e => .error e
    | .ok s => .ok (some s)

/-- `StateManager::is_file_synced`. -/
def is_file_synced (st : Store) (p : FPath) (current_hash : String) :
    Except String Bool :=
  match get_file_state st p with
  | .error e => .error e
  | .ok (some s) => .ok (decide (s.hash = current_hash))
  | .ok none => .ok false

/-- `StateManager::add_pending_sync`. -/
def add_pending_sync (st : Store) (p : PendingSync) : Store :=
  insertS (pending_key p.source_path) (.pendingVal p) st

/-- `StateManager::remove_pending_sync`. -/
def remove_pending_sync (st : Store) (p : FPath) : Store :=
  removeS (pending_key p) st

/-- Decode every value of a scan as a `PendingSync`; the first corrupt
value aborts the whole listing (the `?` inside the scan loop). -/
def collectPendings : List (String × StoreVal) → Except String (List PendingSync)
  | [] => .ok []
  | kv :: t =>
    match decodePending kv.2 with
    | .error e => .error e
    | .ok p =>
      match collectPendings t with
      | .error e => .error e
      | .ok rest => .ok (p :: rest)

/-- `StateManager::get_pending_syncs`: scan `pending:`, decode (aborting
on the first corrupt record), keep those targeting `drive_uuid`. -/
def get_pending_syncs (st : Store) (drive_uuid : String) :
    Except String (List PendingSync) :=
  match collectPendings (scanPre "pending:" st) with
  | .error e => .error e
  | .ok l => .ok (l.filter fun p => decide (p.target_drive = drive_uuid))

/-- `StateManager::get_all_pending_syncs`. -/
def get_all_pending_syncs (st : Store) : Except String (List PendingSync) :=
  collectPendings (scanPre "pending:" st)

/-- Decode every value of a scan as a `FileState`, aborting on the first
corrupt record. -/
def collectFileStates : List (String × StoreVal) → Except String (List FileState)
  | [] => .ok []
  | kv :: t =>
    match decodeFile kv.2 with
    | .error e => .error e
    | .ok s =>
      match collectFileStates t with
      | .error e => .error e
      | .ok rest => .ok (s :: rest)

/-- `StateManager::get_all_file_states`. -/
def get_all_file_states (st : Store) : Except String (List FileState) :=
  collectFileStates (scanPre "file:" st)

structure SyncStats where
  total_files : Nat
  total_size : Nat
  pending_syncs : Nat
  by_category : List (String × Nat)
  deriving DecidableEq, Repr

/-- `*stats.by_category.entry(cat).or_insert(0) += 1`. -/
def bumpCat (cat : String) : List (String × Nat) → List (String × Nat)
  | [] => [(cat, 1)]
  | kv :: t => if kv.1 = cat then (kv.1, kv.2 + 1) :: t else kv :: bumpCat cat t

/-- The accumulation loop of `StateManager::get_sync_stats` over the
`file:` scan; a corrupt record aborts the whole computation. -/
def statsFold : List (String × StoreVal) → SyncStats → Except String SyncStats
  | [], acc => .ok acc
  | kv :: t, acc =>
    match decodeFile kv.2 with
    | .error e => .error e
    | .ok s =>
      statsFold t
        { acc with
          total_files := acc.total_files + 1
          total_size := acc.total_size + s.size
          by_category := bumpCat s.file_category acc.by_category }

/-- `StateManager::get_sync_stats`. -/
def get_sync_stats (st : Store) : Except String SyncStats :=
  match statsFold (scanPre "file:" st)
      { total_files := 0, total_size := 0, pending_syncs := 0, by_category := [] } with
  | .error e => .error e
  | .ok acc =>
    match get_all_pending_syncs st with
    | .error e => .error e
    | .ok l => .ok { acc with pending_syncs := l.length }

/-- `current_timestamp` reads the wall clock; the model takes it from the
environment (`Env.now`). `calculate_file_hash` streams the file through
BLAKE3; the model returns the entry's digest, failing exactly when the
bytes cannot be read. -/
def calculate_file_hash (entry : FileEntry) : Except String String :=
  if entry.contentReadable = false then
    .error "Failed to read file for hashing"
  else .ok entry.hash

/-! ### Sync engine (src/sync/mod.rs) -/

/-- Environment of one engine invocation: the readable source files, the
disks the (refreshed) detector enumerates, whether directory creation and
byte copying succeed, and the wall clock. -/
structure Env where
  fs : List (FPath × FileEntry)
  disks : List DriveInfo
  mkdirOk : Bool
  copyOk : Bool
  now : Nat
  deriving DecidableEq, Repr

/-- `Path::exists` / reading a source file in this environment. -/
def Env.lookupFile (env : Env) (p : FPath) : Option FileEntry :=
  (env.fs.find? fun kv => decide (kv.1 = p)).map Prod.snd

/-- I/O the engine performs against destination drives, recorded so that
theorems can talk about what was copied where.  `copyTmp`/`renameTo` are
the operations an atomic copy-then-rename implementation would emit; this
code base only ever emits `createDirAll` and `copyDirect`. -/
inductive Effect where
  | createDirAll (p : FPath)
  | copyDirect (src dst : FPath)
  | copyTmp (src tmp : FPath)
  | renameTo (tmp dst : FPath)
  deriving DecidableEq, Repr

inductive SyncResult where
  | synced (target : FPath)
  | pending (label : String)
  | alreadySynced
  | skipped (reason : String)
  deriving DecidableEq, Repr

/-- The drive-connected test of `sync_file` (src/sync/mod.rs lines 71-76):
fixed mount path if configured, otherwise label lookup. -/
def drive_connected_of (disks : List DriveInfo) (dcfg : DriveConfig) : Bool :=
  match dcfg.path with
  | some p => is_drive_connected disks p
  | none => (find_drive_by_label disks dcfg.label).isSome

/-- The target-base resolution of `sync_file` (lines 94-102). -/
def target_base_of (disks : List DriveInfo) (dcfg : DriveConfig) :
    Except String FPath :=
  match dcfg.path with
  | some p => .ok p
  | none =>
    match find_drive_by_label disks dcfg.label with
    | some d => .ok d.mount_point
    | none => .error ("Drive not found: " ++ dcfg.label)

/-- `create_dir_all` on the target's parent (lines 112-115): emits the
effect, or fails when directory creation fails. -/
def mkParentDirs (env : Env) (target : FPath) : Except String (List Effect) :=
  match target.parent with
  | some par =>
    if env.mkdirOk then .ok [.createDirAll par] else .error "Failed to create target directory"
  | none => .ok []

/-- `SyncManager::sync_file` (src/sync/mod.rs lines 28-140).  Returns the
outcome, the updated store, and the trace of destination-side I/O. -/
def sync_file (cfg : Config) (env : Env) (st : Store) (source_path : FPath) :
    Except String (SyncResult × Store × List Effect) :=
  match env.lookupFile source_path with
  | none => .error ("File does not exist: " ++ source_path.display)
  | some entry =>
    match get_file_info source_path entry with
    | .error e => .error ("Failed to classify file: " ++ e)
    | .ok file_info =>
      if file_info.file_type = FileType.unknown then
        .ok (.skipped "Unknown file type", st, [])
      else
        let category := file_info.file_type.as_str
        match cfg.find_drive_for_category category with
        | none => .error ("No drive configured for category: " ++ category)
        | some (drive_uuid, drive_config) =>
          match calculate_file_hash entry with
          | .error e => .error ("Failed to hash file: " ++ e)
          | .ok hash =>
            match is_file_synced st source_path hash with
            | .error e => .error e
            | .ok true => .ok (.alreadySynced, st, [])
            | .ok false =>
              if drive_connected_of env.disks drive_config = false then
                .ok (.pending drive_config.label,
                  add_pending_sync st
                    { source_path := source_path, file_category := category,
                      target_drive := drive_uuid, hash := hash,
                      size := file_info.size, created_at := env.now },
                  [])
              else
                match target_base_of env.disks drive_config with
                | .error e => .error e
                | .ok target_base =>
                  let relative_path := (stripPre source_path cfg.source.path).getD source_path
                  let target_path := (target_base.joinS category).join relative_path
                  match mkParentDirs env target_path with
                  | .error e => .error e
                  | .ok dirEffs =>
                    if env.copyOk = false then .error "Failed to copy file"
                    else
                      .ok (.synced target_path,
                        remove_pending_sync
                          (save_file_state st
                            { source_path := source_path, hash := hash,
                              size := file_info.size, last_synced := env.now,
                              target_drive := drive_uuid, target_path := target_path,
                              file_category := category })
                          source_path,
                        dirEffs ++ [.copyDirect source_path target_path])

structure SyncSummary where
  synced : Nat
  pending : Nat
  already_synced : Nat
  skipped : Nat
  failed : Nat
  deriving DecidableEq, Repr

def SyncSummary.zero : SyncSummary :=
  { synced := 0, pending := 0, already_synced := 0, skipped := 0, failed := 0 }

/-- `SyncSummary::total`. -/
def SyncSummary.total (s : SyncSummary) : Nat :=
  s.synced + s.pending + s.already_synced + s.skipped + s.failed

/-- The aggregation loop of `SyncManager::sync_all` (lines 150-161): each
file's outcome bumps exactly one counter; a per-file error bumps `failed`
and the loop continues. -/
def syncFold (cfg : Config) (env : Env) :
    List FPath → SyncSummary → Store → SyncSummary × Store
  | [], sum, st => (sum, st)
  | f :: rest, sum, st =>
    match sync_file cfg env st f with
    | .ok (.synced _, st1, _) => syncFold cfg env rest { sum with synced := sum.synced + 1 } st1
    | .ok (.pending _, st1, _) => syncFold cfg env rest { sum with pending := sum.pending + 1 } st1
    | .ok (.alreadySynced, st1, _) =>
      syncFold cfg env rest { sum with already_synced := sum.already_synced + 1 } st1
    | .ok (.skipped _, st1, _) => syncFold cfg env rest { sum with skipped := sum.skipped + 1 } st1
    | .error _ => syncFold cfg env rest { sum with failed := sum.failed + 1 } st

/-- A directory tree as `collect_files_recursive` walks it: each child
entry carries the success of reading that `DirEntry` (`entry?`), and each
directory carries the success of `fs::read_dir` on it. -/
inductive FsEntry where
  | fileE (name : String)
  | dirE (name : String) (readable : Bool) (children : List (Bool × FsEntry))

/-- The loop of `collect_files_recursive` (src/sync/mod.rs lines 203-213)
over the entries of one directory: an unreadable `DirEntry` or an
unreadable subdirectory aborts with an error (the `?` operators); files
are accumulated in traversal order. -/
def collectEntries (p : FPath) : List (Bool × FsEntry) → Except String (List FPath)
  | [] => .ok []
  | (eok, .fileE n) :: rest =>
    if eok then
      match collectEntries p rest with
      | .error e => .error e
      | .ok more => .ok (p.joinS n :: more)
    else .error "Failed to read entry"
  | (eok, .dirE n readable es) :: rest =>
    if eok then
      if readable then
        match collectEntries (p.joinS n) es with
        | .error e => .error e
        | .ok here =>
          match collectEntries p rest with
          | .error e => .error e
          | .ok more => .ok (here ++ more)
      else .error "Failed to read directory"
    else .error "Failed to read entry"

/-- `SyncManager::collect_files` on the source root: a non-directory root
yields no files (`if !dir.is_dir() return Ok(())`). -/
def collect_files (root : FPath) : FsEntry → Except String (List FPath)
  | .fileE _ => .ok []
  | .dirE _ readable es =>
    if readable then collectEntries root es else .error "Failed to read directory"

/-- `SyncManager::sync_all` (lines 143-164): enumerate, then fold
`sync_file` over every discovered file. -/
def sync_all (cfg : Config) (env : Env) (st : Store) (tree : FsEntry) :
    Except String (SyncSummary × Store) :=
  match collect_files cfg.source.path tree with
  | .error e => .error e
  | .ok files => .ok (syncFold cfg env files SyncSummary.zero st)

/-- The loop of `SyncManager::process_pending_syncs` (lines 173-183): a
pending record whose source still exists goes through `sync_file` (errors
are logged and swallowed); one whose source is gone is removed from the
pending queue without any copy. -/
def drainFold (cfg : Config) (env : Env) :
    List PendingSync → Store → Store × List Effect
  | [], st => (st, [])
  | p :: rest, st =>
    if (env.lookupFile p.source_path).isSome then
      match sync_file cfg env st p.source_path with
      | .ok (_, st1, effs1) =>
        let r := drainFold cfg env rest st1
        (r.1, effs1 ++ r.2)
      | .error _ => drainFold cfg env rest st
    else
      drainFold cfg env rest (remove_pending_sync st p.source_path)

/-- `SyncManager::process_pending_syncs` (lines 167-186): list the pending
records of the drive, process each, return how many were listed. -/
def process_pending_syncs (cfg : Config) (env : Env) (st : Store)
    (drive_uuid : String) : Except String (Nat × Store × List Effect) :=
  match get_pending_syncs st drive_uuid with
  | .error e => .error e
  | .ok pending_syncs =>
    let r := drainFold cfg env pending_syncs st
    .ok (pending_syncs.length, r.1, r.2)

/-! ### Store lemmas -/

theorem lookupS_eq_none_of_not_mem (k : String) (st : Store)
    (h : k ∉ st.map Prod.fst) : lookupS k st = none := by
  induction st with
  | nil => rfl
  | cons kv t ih =>
    have h1 : kv.1 ≠ k := fun hh => h (by simp [hh])
    have h2 : k ∉ t.map Prod.fst := fun hh => h (by simp [hh])
    simp [lookupS, h1, ih h2]

theorem countKey_eq_zero_of_not_mem (k : String) (st : Store)
    (h : k ∉ st.map Prod.fst) : countKey k st = 0 := by
  induction st with
  | nil => rfl
  | cons kv t ih =>
    have h1 : kv.1 ≠ k := fun hh => h (by simp [hh])
    have h2 : k ∉ t.map Prod.fst := fun hh => h (by simp [hh])
    simp [countKey, h1, ih h2]

theorem lookupS_insertS_self (k : String) (v : StoreVal) (st : Store) :
    lookupS k (insertS k v st) = some v := by
  induction st with
  | nil => simp [insertS, lookupS]
  | cons kv t ih =>
    by_cases h : kv.1 = k
    · simp [insertS, h, lookupS]
    · simp [insertS, h, lookupS, ih]

theorem lookupS_insertS_ne (k k2 : String) (v : StoreVal) (st : Store)
    (h : k ≠ k2) : lookupS k (insertS k2 v st) = lookupS k st := by
  have h' : k2 ≠ k := Ne.symm h
  induction st with
  | nil => simp [insertS, lookupS, h']
  | cons kv t ih =>
    by_cases h2 : kv.1 = k2
    · have h3 : kv.1 ≠ k := by rw [h2]; exact h'
      simp [insertS, h2, lookupS, h3, h']
    · simp only [insertS, if_neg h2, lookupS, ih]

theorem lookupS_removeS_ne (k k2 : String) (st : Store) (h : k ≠ k2) :
    lookupS k (removeS k2 st) = lookupS k st := by
  induction st with
  | nil => rfl
  | cons kv t ih =>
    by_cases h2 : kv.1 = k2
    · have h3 : kv.1 ≠ k := by rw [h2]; exact Ne.symm h
      simp [removeS, h2, lookupS, h3, Ne.symm h]
    · simp only [removeS, if_neg h2, lookupS, ih]

theorem mem_keys_insertS (k k2 : String) (v : StoreVal) (st : Store) :
    k2 ∈ (insertS k v st).map Prod.fst ↔ k2 = k ∨ k2 ∈ st.map Prod.fst := by
  induction st with
  | nil => simp [insertS]
  | cons kv t ih =>
    by_cases h : kv.1 = k
    · subst h
      simp [insertS]
    · simp only [insertS, if_neg h, List.map_cons, List.mem_cons, ih]
      tauto

theorem nodupK_insertS (k : String) (v : StoreVal) (st : Store)
    (h : NodupK st) : NodupK (insertS k v st) := by
  induction st with
  | nil => exact List.nodup_singleton k
  | cons kv t ih =>
    rcases List.nodup_cons.mp h with ⟨hk, ht⟩
    by_cases h2 : kv.1 = k
    · subst h2
      simp only [insertS, if_pos rfl]
      exact List.nodup_cons.mpr ⟨hk, ht⟩
    · simp only [insertS, if_neg h2, List.map_cons]
      refine List.nodup_cons.mpr ⟨?_, ih ht⟩
      rw [mem_keys_insertS]
      rintro (h3 | h3)
      · exact h2 h3
      · exact hk h3

theorem removeS_keys_sub (k k2 : String) (st : Store) :
    k2 ∈ (removeS k st).map Prod.fst → k2 ∈ st.map Prod.fst := by
  induction st with
  | nil => simp [removeS]
  | cons kv t ih =>
    by_cases h : kv.1 = k
    · simp only [removeS, if_pos h, List.map_cons, List.mem_cons]
      exact fun hh => Or.inr hh
    · simp only [removeS, if_neg h, List.map_cons, List.mem_cons]
      rintro (hh | hh)
      · exact Or.inl hh
      · exact Or.inr (ih hh)

theorem nodupK_removeS (k : String) (st : Store) (h : NodupK st) :
    NodupK (removeS k st) := by
  induction st with
  | nil => exact List.nodup_nil
  | cons kv t ih =>
    rcases List.nodup_cons.mp h with ⟨hk, ht⟩
    by_cases h2 : kv.1 = k
    · simp only [removeS, if_pos h2]
      exact ht
    · simp only [removeS, if_neg h2, List.map_cons]
      exact List.nodup_cons.mpr ⟨fun hm => hk (removeS_keys_sub k kv.1 t hm), ih ht⟩

theorem lookupS_removeS_self (k : String) (st : Store) (h : NodupK st) :
    lookupS k (removeS k st) = none := by
  induction st with
  | nil => rfl
  | cons kv t ih =>
    rcases List.nodup_cons.mp h with ⟨hk, ht⟩
    by_cases h2 : kv.1 = k
    · simp only [removeS, if_pos h2]
      subst h2
      exact lookupS_eq_none_of_not_mem kv.1 t hk
    · simp only [removeS, if_neg h2, lookupS, if_neg h2]
      exact ih ht

theorem countKey_le_one (k : String) (st : Store) (h : NodupK st) :
    countKey k st ≤ 1 := by
  induction st with
  | nil => simp [countKey]
  | cons kv t ih =>
    rcases List.nodup_cons.mp h with ⟨hk, ht⟩
    by_cases h2 : kv.1 = k
    · subst h2
      simp [countKey, countKey_eq_zero_of_not_mem kv.1 t hk]
    · simp only [countKey, if_neg h2, Nat.zero_add]
      exact ih ht

theorem countKey_insertS_self (k : String) (v : StoreVal) (st : Store)
    (h : NodupK st) : countKey k (insertS k v st) = 1 := by
  induction st with
  | nil => simp [insertS, countKey]
  | cons kv t ih =>
    rcases List.nodup_cons.mp h with ⟨hk, ht⟩
    by_cases h2 : kv.1 = k
    · subst h2
      simp [insertS, countKey, countKey_eq_zero_of_not_mem kv.1 t hk]
    · simp only [insertS, if_neg h2, countKey, if_neg h2, Nat.zero_add]
      exact ih ht

theorem countKey_removeS_ne (k k2 : String) (st : Store) (h : k ≠ k2) :
    countKey k (removeS k2 st) = countKey k st := by
  induction st with
  | nil => rfl
  | cons kv t ih =>
    by_cases h2 : kv.1 = k2
    · have h3 : kv.1 ≠ k := by rw [h2]; exact Ne.symm h
      simp [removeS, h2, countKey, h3, Ne.symm h]
    · simp only [removeS, if_neg h2, countKey, ih]

theorem string_append_left_cancel (s a b : String) (h : s ++ a = s ++ b) :
    a = b := by
  cases a with
  | mk da =>
    cases b with
    | mk db =>
      have hdata : (s ++ String.mk da).data = (s ++ String.mk db).data := by rw [h]
      simp only [String.data_append] at hdata
      exact congrArg String.mk (List.append_cancel_left hdata)

theorem file_key_ne_pending_key (p q : FPath) : file_key p ≠ pending_key q := by
  intro h
  have hdata : (file_key p).data = (pending_key q).data := by rw [h]
  simp [file_key, pending_key, String.data_append] at hdata

theorem file_key_inj_display (p q : FPath) (h : file_key p = file_key q) :
    p.display = q.display :=
  string_append_left_cancel "file:" p.display q.display h

theorem pending_key_inj_display (p q : FPath) (h : pending_key p = pending_key q) :
    p.display = q.display :=
  string_append_left_cancel "pending:" p.display q.display h

theorem file_key_ne_of_pending_key_ne (p q : FPath)
    (h : pending_key p ≠ pending_key q) : file_key p ≠ file_key q := by
  intro h2
  exact h (by rw [pending_key, pending_key, file_key_inj_display p q h2])

/-- Unfolding of `is_file_synced st p h = .ok true`. -/
theorem is_file_synced_true_iff (st : Store) (p : FPath) (h : String) :
    is_file_synced st p h = .ok true ↔
      ∃ s, lookupS (file_key p) st = some (.fileVal s) ∧ s.hash = h := by
  constructor
  · intro hs
    unfold is_file_synced get_file_state at hs
    cases hl : lookupS (file_key p) st with
    | none => rw [hl] at hs; simp at hs
    | some v =>
      rw [hl] at hs
      cases v with
      | fileVal s =>
        simp only [decodeFile] at hs
        refine ⟨s, rfl, ?_⟩
        by_cases hh : s.hash = h
        · exact hh
        · simp [hh] at hs
      | pendingVal q => simp [decodeFile] at hs
      | corrupt => simp [decodeFile] at hs
  · rintro ⟨s, hl, hh⟩
    unfold is_file_synced get_file_state
    rw [hl]
    simp [decodeFile, hh]

/-- Unfolding of `is_file_synced st p h = .ok false`. -/
theorem is_file_synced_false_iff (st : Store) (p : FPath) (h : String) :
    is_file_synced st p h = .ok false ↔
      lookupS (file_key p) st = none ∨
        ∃ s, lookupS (file_key p) st = some (.fileVal s) ∧ s.hash ≠ h := by
  constructor
  · intro hs
    unfold is_file_synced get_file_state at hs
    cases hl : lookupS (file_key p) st with
    | none => exact Or.inl rfl
    | some v =>
      rw [hl] at hs
      cases v with
      | fileVal s =>
        simp only [decodeFile] at hs
        refine Or.inr ⟨s, rfl, ?_⟩
        by_cases hh : s.hash = h
        · simp [hh] at hs
        · exact hh
      | pendingVal q => simp [decodeFile] at hs
      | corrupt => simp [decodeFile] at hs
  · rintro (hl | ⟨s, hl, hh⟩)
    · unfold is_file_synced get_file_state
      rw [hl]
    · unfold is_file_synced get_file_state
      rw [hl]
      simp [decodeFile, hh]

/-- `is_file_synced` depends on the store only through the file record of
the queried path. -/
theorem is_file_synced_congr (st1 st2 : Store) (p : FPath) (h : String)
    (he : lookupS (file_key p) st1 = lookupS (file_key p) st2) :
    is_file_synced st1 p h = is_file_synced st2 p h := by
  unfold is_file_synced get_file_state
  rw [he]

/-! ### Evaluation lemmas for `sync_file` -/

theorem calculate_file_hash_inv (e : FileEntry) (h : String)
    (hh : calculate_file_hash e = .ok h) : h = e.hash := by
  unfold calculate_file_hash at hh
  by_cases hr : e.contentReadable = false
  · simp [hr] at hh
  · simp [hr] at hh
    exact hh.symm

/-- An unclassifiable file is skipped with no store write and no I/O. -/
theorem sync_file_skip_unknown (cfg : Config) (env : Env) (st : Store)
    (src : FPath) (entry : FileEntry) (fi : FileInfo)
    (h1 : env.lookupFile src = some entry)
    (h2 : get_file_info src entry = .ok fi)
    (h3 : fi.file_type = .unknown) :
    sync_file cfg env st src = .ok (.skipped "Unknown file type", st, []) := by
  simp [sync_file, h1, h2, h3]

/-- A fresh matching file record short-circuits to `AlreadySynced` with no
store write and no I/O. -/
theorem sync_file_already (cfg : Config) (env : Env) (st : Store)
    (src : FPath) (entry : FileEntry) (fi : FileInfo)
    (uuid : String) (dcfg : DriveConfig)
    (h1 : env.lookupFile src = some entry)
    (h2 : get_file_info src entry = .ok fi)
    (h3 : fi.file_type ≠ .unknown)
    (h4 : cfg.find_drive_for_category fi.file_type.as_str = some (uuid, dcfg))
    (h5 : entry.contentReadable = true)
    (h6 : is_file_synced st src entry.hash = .ok true) :
    sync_file cfg env st src = .ok (.alreadySynced, st, []) := by
  simp [sync_file, h1, h2, h3, h4, calculate_file_hash, h5, h6]

/-- With the drive unreachable and no fresh record, the file is queued
pending under its own key, with no destination I/O. -/
theorem sync_file_pending (cfg : Config) (env : Env) (st : Store)
    (src : FPath) (entry : FileEntry) (fi : FileInfo)
    (uuid : String) (dcfg : DriveConfig)
    (h1 : env.lookupFile src = some entry)
    (h2 : get_file_info src entry = .ok fi)
    (h3 : fi.file_type ≠ .unknown)
    (h4 : cfg.find_drive_for_category fi.file_type.as_str = some (uuid, dcfg))
    (h5 : entry.contentReadable = true)
    (h6 : is_file_synced st src entry.hash = .ok false)
    (h7 : drive_connected_of env.disks dcfg = false) :
    sync_file cfg env st src = .ok (.pending dcfg.label,
      add_pending_sync st
        { source_path := src, file_category := fi.file_type.as_str,
          target_drive := uuid, hash := entry.hash, size := fi.size,
          created_at := env.now }, []) := by
  simp [sync_file, h1, h2, h3, h4, calculate_file_hash, h5, h6, h7]

/-- The destination path the engine computes for a reachable route. -/
def targetOf (cfg : Config) (b : FPath) (category : String) (src : FPath) : FPath :=
  (b.joinS category).join ((stripPre src cfg.source.path).getD src)

/-- The file record the engine writes after a successful copy. -/
def fstateOf (cfg : Config) (env : Env) (b : FPath) (src : FPath)
    (entry : FileEntry) (fi : FileInfo) (uuid : String) : FileState :=
  { source_path := src, hash := entry.hash, size := fi.size,
    last_synced := env.now, target_drive := uuid,
    target_path := targetOf cfg b fi.file_type.as_str src,
    file_category := fi.file_type.as_str }

/-- With the drive reachable, no fresh record, and destination I/O
succeeding, the engine copies directly to the computed target, records the
file state, and clears any pending record. -/
theorem sync_file_reachable (cfg : Config) (env : Env) (st : Store)
    (src : FPath) (entry : FileEntry) (fi : FileInfo)
    (uuid : String) (dcfg : DriveConfig) (b : FPath)
    (h1 : env.lookupFile src = some entry)
    (h2 : get_file_info src entry = .ok fi)
    (h3 : fi.file_type ≠ .unknown)
    (h4 : cfg.find_drive_for_category fi.file_type.as_str = some (uuid, dcfg))
    (h5 : entry.contentReadable = true)
    (h6 : is_file_synced st src entry.hash = .ok false)
    (h7 : drive_connected_of env.disks dcfg = true)
    (h8 : target_base_of env.disks dcfg = .ok b)
    (h9 : env.mkdirOk = true)
    (h10 : env.copyOk = true) :
    sync_file cfg env st src = .ok (.synced (targetOf cfg b fi.file_type.as_str src),
      remove_pending_sync
        (save_file_state st (fstateOf cfg env b src entry fi uuid)) src,
      (match (targetOf cfg b fi.file_type.as_str src).parent with
        | some par => [Effect.createDirAll par]
        | none => []) ++ [.copyDirect src (targetOf cfg b fi.file_type.as_str src)]) := by
  cases hpar : (targetOf cfg b fi.file_type.as_str src).parent with
  | none =>
    simp only [targetOf] at hpar
    simp [sync_file, h1, h2, h3, h4, calculate_file_hash, h5, h6, h7, h8,
      mkParentDirs, targetOf, fstateOf, hpar, h9, h10]
  | some par =>
    simp only [targetOf] at hpar
    simp [sync_file, h1, h2, h3, h4, calculate_file_hash, h5, h6, h7, h8,
      mkParentDirs, targetOf, fstateOf, hpar, h9, h10]

theorem mkParentDirs_inv (env : Env) (tgt : FPath) (effs : List Effect)
    (h : mkParentDirs env tgt = .ok effs) :
    effs = [] ∨ ∃ par, effs = [.createDirAll par] := by
  unfold mkParentDirs at h
  cases hp : tgt.parent with
  | none =>
    rw [hp] at h
    simp at h
    exact Or.inl h
  | some par =>
    rw [hp] at h
    by_cases hm : env.mkdirOk
    · simp [hm] at h
      exact Or.inr ⟨par, h.symm⟩
    · simp [hm] at h

/-- Exhaustive shape of every successful `sync_file` outcome: it either
leaves the store alone, upserts one pending record for the source path, or
writes the file record for the source path and removes its pending record;
destination I/O happens only in the synced case and is a direct copy. -/
theorem sync_file_cases (cfg : Config) (env : Env) (st : Store) (src : FPath)
    (r : SyncResult) (st' : Store) (effs : List Effect)
    (h : sync_file cfg env st src = .ok (r, st', effs)) :
    ((∃ reason, r = .skipped reason) ∧ st' = st ∧ effs = []) ∨
    (r = .alreadySynced ∧ st' = st ∧ effs = []) ∨
    (∃ lab pend, r = .pending lab ∧ PendingSync.source_path pend = src ∧
      st' = add_pending_sync st pend ∧ effs = []) ∨
    (∃ tgt fs, r = .synced tgt ∧ FileState.source_path fs = src ∧
      st' = remove_pending_sync (save_file_state st fs) src ∧
      (effs = [.copyDirect src tgt] ∨
        ∃ par, effs = [.createDirAll par, .copyDirect src tgt])) := by
  simp only [sync_file] at h
  split at h
  · simp at h
  · split at h
    · simp at h
    · split at h
      · simp only [Except.ok.injEq, Prod.mk.injEq] at h
        obtain ⟨hr, hst, heff⟩ := h
        exact Or.inl ⟨⟨"Unknown file type", hr.symm⟩, hst.symm, heff.symm⟩
      · split at h
        · simp at h
        · split at h
          · simp at h
          · split at h
            · simp at h
            · simp only [Except.ok.injEq, Prod.mk.injEq] at h
              obtain ⟨hr, hst, heff⟩ := h
              exact Or.inr (Or.inl ⟨hr.symm, hst.symm, heff.symm⟩)
            · split at h
              · simp only [Except.ok.injEq, Prod.mk.injEq] at h
                obtain ⟨hr, hst, heff⟩ := h
                refine Or.inr (Or.inr (Or.inl ⟨_, _, hr.symm, rfl, hst.symm, heff.symm⟩))
              · split at h
                · simp at h
                · rename_i entry hinfo fi hunk uuid dcfg hroute hash hhash hsync hconn
                    tb htb
                  split at h
                  · simp at h
                  · rename_i dirEffs hdirs
                    split at h
                    · simp at h
                    · simp only [Except.ok.injEq, Prod.mk.injEq] at h
                      obtain ⟨hr, hst, heff⟩ := h
                      refine Or.inr (Or.inr (Or.inr ⟨_, _, hr.symm, rfl, hst.symm, ?_⟩))
                      rcases mkParentDirs_inv env _ dirEffs hdirs with hd | ⟨par, hd⟩
                      · subst hd
                        exact Or.inl heff.symm
                      · subst hd
                        exact Or.inr ⟨par, heff.symm⟩

/-- A successful `sync_file` touches no store key other than the file and
pending keys of its own source path. -/
theorem sync_file_frame (cfg : Config) (env : Env) (st : Store) (src : FPath)
    (r : SyncResult) (st' : Store) (effs : List Effect)
    (h : sync_file cfg env st src = .ok (r, st', effs))
    (k : String) (hk1 : k ≠ file_key src) (hk2 : k ≠ pending_key src) :
    lookupS k st' = lookupS k st := by
  rcases sync_file_cases cfg env st src r st' effs h with
    ⟨_, hst, _⟩ | ⟨_, hst, _⟩ | ⟨lab, pend, _, hsrc, hst, _⟩ |
    ⟨tgt, fs, _, hsrc, hst, _⟩
  · rw [hst]
  · rw [hst]
  · rw [hst]
    unfold add_pending_sync
    rw [hsrc]
    exact lookupS_insertS_ne k _ _ st hk2
  · rw [hst]
    unfold remove_pending_sync save_file_state
    rw [hsrc]
    rw [lookupS_removeS_ne k _ _ hk2]
    exact lookupS_insertS_ne k _ _ st hk1

/-- A successful `sync_file` preserves key uniqueness of the store. -/
theorem sync_file_nodupK (cfg : Config) (env : Env) (st : Store) (src : FPath)
    (r : SyncResult) (st' : Store) (effs : List Effect)
    (h : sync_file cfg env st src = .ok (r, st', effs))
    (hN : NodupK st) : NodupK st' := by
  rcases sync_file_cases cfg env st src r st' effs h with
    ⟨_, hst, _⟩ | ⟨_, hst, _⟩ | ⟨lab, pend, _, hsrc, hst, _⟩ |
    ⟨tgt, fs, _, hsrc, hst, _⟩
  · rw [hst]; exact hN
  · rw [hst]; exact hN
  · rw [hst]
    exact nodupK_insertS _ _ st hN
  · rw [hst]
    exact nodupK_removeS _ _ (nodupK_insertS _ _ st hN)

/-- Every copy a `sync_file` call performs reads from its own source. -/
theorem sync_file_copy_src (cfg : Config) (env : Env) (st : Store) (src : FPath)
    (r : SyncResult) (st' : Store) (effs : List Effect)
    (h : sync_file cfg env st src = .ok (r, st', effs))
    (s d : FPath) (hmem : Effect.copyDirect s d ∈ effs) : s = src := by
  rcases sync_file_cases cfg env st src r st' effs h with
    ⟨_, _, heff⟩ | ⟨_, _, heff⟩ | ⟨lab, pend, _, _, _, heff⟩ |
    ⟨tgt, fs, _, _, _, heff | ⟨par, heff⟩⟩
  · rw [heff] at hmem; simp at hmem
  · rw [heff] at hmem; simp at hmem
  · rw [heff] at hmem; simp at hmem
  · rw [heff] at hmem
    simp at hmem
    exact hmem.1
  · rw [heff] at hmem
    simp at hmem
    exact hmem.1

/-- `sync_file` never copies to a temporary name and never renames; and a
`Synced` outcome always carries a direct copy to the returned target. -/
theorem sync_file_direct_only (cfg : Config) (env : Env) (st : Store)
    (src : FPath) (r : SyncResult) (st' : Store) (effs : List Effect)
    (h : sync_file cfg env st src = .ok (r, st', effs)) :
    (∀ a c, Effect.copyTmp a c ∉ effs ∧ Effect.renameTo a c ∉ effs) ∧
    (∀ t, r = .synced t → Effect.copyDirect src t ∈ effs) := by
  rcases sync_file_cases cfg env st src r st' effs h with
    ⟨⟨reason, hr⟩, _, heff⟩ | ⟨hr, _, heff⟩ | ⟨lab, pend, hr, _, _, heff⟩ |
    ⟨tgt, fs, hr, _, _, heff | ⟨par, heff⟩⟩
  · subst heff
    exact ⟨by simp, fun t ht => by rw [hr] at ht; simp at ht⟩
  · subst heff
    exact ⟨by simp, fun t ht => by rw [hr] at ht; simp at ht⟩
  · subst heff
    exact ⟨by simp, fun t ht => by rw [hr] at ht; simp at ht⟩
  · subst heff
    refine ⟨by simp, fun t ht => ?_⟩
    rw [hr] at ht
    simp only [SyncResult.synced.injEq] at ht
    subst ht
    simp
  · subst heff
    refine ⟨by simp, fun t ht => ?_⟩
    rw [hr] at ht
    simp only [SyncResult.synced.injEq] at ht
    subst ht
    simp

/-- Inversion of an `AlreadySynced` outcome: the store was untouched, no
I/O happened, and a file record with the current content hash exists. -/
theorem sync_file_already_inv (cfg : Config) (env : Env) (st : Store)
    (src : FPath) (st' : Store) (effs : List Effect)
    (h : sync_file cfg env st src = .ok (.alreadySynced, st', effs)) :
    st' = st ∧ effs = [] ∧
      ∃ entry, env.lookupFile src = some entry ∧
        is_file_synced st src entry.hash = .ok true := by
  simp only [sync_file] at h
  split at h
  · simp at h
  · rename_i entry hentry
    split at h
    · simp at h
    · split at h
      · simp at h
      · split at h
        · simp at h
        · split at h
          · simp at h
          · split at h
            · simp at h
            · rename_i hash hhash x hsync
              simp only [Except.ok.injEq, Prod.mk.injEq] at h
              obtain ⟨hr, hst, heff⟩ := h
              refine ⟨hst.symm, heff.symm, entry, hentry, ?_⟩
              rw [calculate_file_hash_inv entry hash hhash] at hsync
              exact hsync
            · split at h
              · simp at h
              · split at h
                · simp at h
                · split at h
                  · simp at h
                  · split at h
                    · simp at h
                    · simp at h

/-! ### Batch lemmas -/

/-- Each file the batch loop visits bumps exactly one counter: the totals
grow by exactly the number of files, whatever each outcome is. -/
theorem syncFold_total (cfg : Config) (env : Env) :
    ∀ (files : List FPath) (sum : SyncSummary) (st : Store),
      (syncFold cfg env files sum st).1.total = sum.total + files.length := by
  intro files
  induction files with
  | nil => intro sum st; simp [syncFold]
  | cons f rest ih =>
    intro sum st
    unfold syncFold
    cases h : sync_file cfg env st f with
    | error e =>
      rw [ih]
      simp [SyncSummary.total]
      omega
    | ok v =>
      obtain ⟨r, st1, effs⟩ := v
      cases r with
      | synced t => rw [ih]; simp [SyncSummary.total]; omega
      | pending lab => rw [ih]; simp [SyncSummary.total]; omega
      | alreadySynced => rw [ih]; simp [SyncSummary.total]; omega
      | skipped reason => rw [ih]; simp [SyncSummary.total]; omega

/-- Whether a scanned slice contains a value that does not decode as a
`PendingSync`. -/
def hasBadPending (es : List (String × StoreVal)) : Bool :=
  es.any fun kv =>
    match kv.2 with
    | .pendingVal _ => false
    | _ => true

/-- Whether a scanned slice contains a value that does not decode as a
`FileState`. -/
def hasBadFile (es : List (String × StoreVal)) : Bool :=
  es.any fun kv =>
    match kv.2 with
    | .fileVal _ => false
    | _ => true

theorem collectPendings_error_of_bad (es : List (String × StoreVal))
    (h : hasBadPending es = true) : ∃ e, collectPendings es = .error e := by
  induction es with
  | nil => simp [hasBadPending] at h
  | cons kv t ih =>
    cases hv : kv.2 with
    | pendingVal p =>
      have ht : hasBadPending t = true := by
        simp [hasBadPending, hv] at h
        simpa [hasBadPending] using h
      rcases ih ht with ⟨e, he⟩
      exact ⟨e, by simp [collectPendings, hv, decodePending, he]⟩
    | fileVal s =>
      exact ⟨"failed to decode PendingSync", by simp [collectPendings, hv, decodePending]⟩
    | corrupt =>
      exact ⟨"failed to decode PendingSync", by simp [collectPendings, hv, decodePending]⟩

theorem collectFileStates_error_of_bad (es : List (String × StoreVal))
    (h : hasBadFile es = true) : ∃ e, collectFileStates es = .error e := by
  induction es with
  | nil => simp [hasBadFile] at h
  | cons kv t ih =>
    cases hv : kv.2 with
    | fileVal s =>
      have ht : hasBadFile t = true := by
        simp [hasBadFile, hv] at h
        simpa [hasBadFile] using h
      rcases ih ht with ⟨e, he⟩
      exact ⟨e, by simp [collectFileStates, hv, decodeFile, he]⟩
    | pendingVal p =>
      exact ⟨"failed to decode FileState", by simp [collectFileStates, hv, decodeFile]⟩
    | corrupt =>
      exact ⟨"failed to decode FileState", by simp [collectFileStates, hv, decodeFile]⟩

theorem statsFold_error_of_bad (es : List (String × StoreVal))
    (h : hasBadFile es = true) :
    ∀ acc, ∃ e, statsFold es acc = .error e := by
  induction es with
  | nil => simp [hasBadFile] at h
  | cons kv t ih =>
    intro acc
    cases hv : kv.2 with
    | fileVal s =>
      have ht : hasBadFile t = true := by
        simp [hasBadFile, hv] at h
        simpa [hasBadFile] using h
      obtain ⟨e, he⟩ :=
        ih ht
          { total_files := acc.total_files + 1
            total_size := acc.total_size + s.size
            pending_syncs := acc.pending_syncs
            by_category := bumpCat s.file_category acc.by_category }
      exact ⟨e, by simp [statsFold, hv, decodeFile, he]⟩
    | pendingVal p =>
      exact ⟨"failed to decode FileState", by simp [statsFold, hv, decodeFile]⟩
    | corrupt =>
      exact ⟨"failed to decode FileState", by simp [statsFold, hv, decodeFile]⟩

/-! ### Readiness and the pending-drain loop -/

theorem target_base_of_connected (disks : List DriveInfo) (dcfg : DriveConfig)
    (h : drive_connected_of disks dcfg = true) :
    ∃ b, target_base_of disks dcfg = .ok b := by
  unfold drive_connected_of at h
  cases hp : dcfg.path with
  | some p => exact ⟨p, by unfold target_base_of; rw [hp]⟩
  | none =>
    rw [hp] at h
    cases hf : find_drive_by_label disks dcfg.label with
    | none => rw [hf] at h; simp at h
    | some d =>
      exact ⟨d.mount_point, by unfold target_base_of; rw [hp, hf]⟩

/-- All the conditions under which `sync_file` completes a copy for this
source path: the file is readable and classifiable, a route exists, no
fresh record is stored, the drive is reachable, and destination I/O
succeeds.  Depends on the store only through the file record of `src`. -/
def syncReadyB (cfg : Config) (env : Env) (st : Store) (src : FPath) : Bool :=
  match env.lookupFile src with
  | none => false
  | some entry =>
    match get_file_info src entry with
    | .error _ => false
    | .ok fi =>
      if fi.file_type = FileType.unknown then false
      else
        match cfg.find_drive_for_category fi.file_type.as_str with
        | none => false
        | some (_, dcfg) =>
          entry.contentReadable &&
          (match is_file_synced st src entry.hash with
            | .ok false => true
            | _ => false) &&
          drive_connected_of env.disks dcfg && env.mkdirOk && env.copyOk

theorem syncReadyB_congr (cfg : Config) (env : Env) (st1 st2 : Store)
    (src : FPath)
    (he : lookupS (file_key src) st1 = lookupS (file_key src) st2) :
    syncReadyB cfg env st1 src = syncReadyB cfg env st2 src := by
  unfold syncReadyB
  cases hl : env.lookupFile src with
  | none => rfl
  | some entry =>
    cases hi : get_file_info src entry with
    | error e => simp [hi]
    | ok fi =>
      by_cases hu : fi.file_type = FileType.unknown
      · simp [hi, hu]
      · cases hr : cfg.find_drive_for_category fi.file_type.as_str with
        | none => simp [hi, hu, hr]
        | some pr =>
          obtain ⟨u, dcfg⟩ := pr
          have hsy : is_file_synced st1 src entry.hash
              = is_file_synced st2 src entry.hash :=
            is_file_synced_congr st1 st2 src entry.hash he
          simp [hi, hu, hr, hsy]

/-- When everything is ready, `sync_file` succeeds with `Synced`, leaves a
file record and no pending record for the path, and changes no other key. -/
theorem sync_file_of_ready (cfg : Config) (env : Env) (st : Store) (src : FPath)
    (hN : NodupK st) (h : syncReadyB cfg env st src = true) :
    ∃ tgt st1 effs, sync_file cfg env st src = .ok (.synced tgt, st1, effs) ∧
      (∃ s, lookupS (file_key src) st1 = some (.fileVal s)) ∧
      lookupS (pending_key src) st1 = none := by
  unfold syncReadyB at h
  split at h
  · simp at h
  · rename_i entry hentry
    split at h
    · simp at h
    · rename_i fi hinfo
      split at h
      · simp at h
      · rename_i hunk
        split at h
        · simp at h
        · rename_i uuid dcfg hroute
          simp only [Bool.and_eq_true] at h
          obtain ⟨⟨⟨⟨hcr, hm⟩, hconn⟩, hmk⟩, hcp⟩ := h
          have hsync : is_file_synced st src entry.hash = .ok false := by
            split at hm
            · assumption
            · simp at hm
          obtain ⟨b, hb⟩ := target_base_of_connected env.disks dcfg hconn
          have heval := sync_file_reachable cfg env st src entry fi uuid dcfg b
            hentry hinfo hunk hroute hcr hsync hconn hb hmk hcp
          refine ⟨targetOf cfg b fi.file_type.as_str src,
            remove_pending_sync
              (save_file_state st (fstateOf cfg env b src entry fi uuid)) src,
            _, heval, ⟨fstateOf cfg env b src entry fi uuid, ?_⟩, ?_⟩
          · unfold remove_pending_sync save_file_state
            rw [lookupS_removeS_ne _ _ _ (file_key_ne_pending_key src src)]
            simpa [fstateOf] using
              lookupS_insertS_self (file_key src) _ st
          · unfold remove_pending_sync save_file_state
            apply lookupS_removeS_self
            exact nodupK_insertS _ _ st hN

/-- Pairwise distinct pending keys: the shape in which pending records
come out of a scan of a store with unique keys. -/
def DK (l : List PendingSync) : Prop :=
  l.Pairwise fun a b => pending_key a.source_path ≠ pending_key b.source_path

/-- Every stored value sits under the key its own payload determines (as
written by `save_file_state` and `add_pending_sync`). -/
def wfStoreB (st : Store) : Bool :=
  st.all fun kv =>
    match kv.2 with
    | .pendingVal p => decide (kv.1 = pending_key p.source_path)
    | .fileVal s => decide (kv.1 = file_key s.source_path)
    | .corrupt => true

theorem decodePending_inv (v : StoreVal) (p : PendingSync)
    (h : decodePending v = .ok p) : v = .pendingVal p := by
  cases v with
  | pendingVal q => simp [decodePending] at h; rw [h]
  | fileVal s => simp [decodePending] at h
  | corrupt => simp [decodePending] at h

theorem collectPendings_keys (es : List (String × StoreVal)) :
    ∀ l, (∀ kv ∈ es, ∀ p, kv.2 = .pendingVal p → kv.1 = pending_key p.source_path) →
      collectPendings es = .ok l →
      ∀ q ∈ l, pending_key q.source_path ∈ es.map Prod.fst := by
  induction es with
  | nil =>
    intro l _ h q hq
    simp [collectPendings] at h
    subst h
    simp at hq
  | cons kv t ih =>
    intro l hwf h q hq
    unfold collectPendings at h
    cases hd : decodePending kv.2 with
    | error e => rw [hd] at h; simp at h
    | ok p =>
      rw [hd] at h
      cases hc : collectPendings t with
      | error e => rw [hc] at h; simp at h
      | ok rest =>
        rw [hc] at h
        simp only [Except.ok.injEq] at h
        subst h
        rcases List.mem_cons.mp hq with hq | hq
        · subst hq
          have := hwf kv (by simp) q (decodePending_inv kv.2 q hd)
          simp [this.symm]
        · have := ih rest (fun kv2 hm => hwf kv2 (by simp [hm])) hc q hq
          simp [this]

theorem collectPendings_DK (es : List (String × StoreVal)) :
    ∀ l, (es.map Prod.fst).Nodup →
      (∀ kv ∈ es, ∀ p, kv.2 = .pendingVal p → kv.1 = pending_key p.source_path) →
      collectPendings es = .ok l → DK l := by
  induction es with
  | nil =>
    intro l _ _ h
    simp [collectPendings] at h
    subst h
    exact List.Pairwise.nil
  | cons kv t ih =>
    intro l hnd hwf h
    unfold collectPendings at h
    cases hd : decodePending kv.2 with
    | error e => rw [hd] at h; simp at h
    | ok p =>
      rw [hd] at h
      cases hc : collectPendings t with
      | error e => rw [hc] at h; simp at h
      | ok rest =>
        rw [hc] at h
        simp only [Except.ok.injEq] at h
        subst h
        rcases List.nodup_cons.mp hnd with ⟨hk, hndt⟩
        refine List.Pairwise.cons ?_
          (ih rest hndt (fun kv2 hm => hwf kv2 (by simp [hm])) hc)
        intro q hq
        have hkeyp : kv.1 = pending_key p.source_path :=
          hwf kv (by simp) p (decodePending_inv kv.2 p hd)
        have hkeyq : pending_key q.source_path ∈ t.map Prod.fst :=
          collectPendings_keys t rest
            (fun kv2 hm => hwf kv2 (by simp [hm])) hc q hq
        intro heq
        rw [← hkeyp] at heq
        rw [← heq] at hkeyq
        exact hk hkeyq

theorem get_pending_syncs_DK (st : Store) (uuid : String)
    (l : List PendingSync) (hN : NodupK st) (hwf : wfStoreB st = true)
    (h : get_pending_syncs st uuid = .ok l) : DK l := by
  unfold get_pending_syncs at h
  cases hc : collectPendings (scanPre "pending:" st) with
  | error e => rw [hc] at h; simp at h
  | ok l0 =>
    rw [hc] at h
    simp only [Except.ok.injEq] at h
    subst h
    have hnd : ((scanPre "pending:" st).map Prod.fst).Nodup :=
      List.Nodup.sublist (List.Sublist.map Prod.fst (List.filter_sublist st)) hN
    have hwf2 : ∀ kv ∈ scanPre "pending:" st, ∀ p,
        kv.2 = .pendingVal p → kv.1 = pending_key p.source_path := by
      intro kv hm p hv
      have hmem : kv ∈ st := List.mem_of_mem_filter hm
      have := (List.all_eq_true.mp hwf) kv hmem
      rw [hv] at this
      exact of_decide_eq_true this
    have hdk0 : DK l0 := collectPendings_DK _ l0 hnd hwf2 hc
    exact List.Pairwise.sublist (List.filter_sublist l0) hdk0

/-- Behaviour of the pending-drain loop over a list of pending records
with pairwise-distinct keys, all ready to sync where their source still
exists: key uniqueness is preserved, foreign keys are untouched, every
copy reads an existing listed source, records with vanished sources are
removed (with no copy), and records with existing sources end fully
synced (file record present, pending record gone). -/
theorem drainFold_spec (cfg : Config) (env : Env) :
    ∀ (l : List PendingSync) (st : Store), NodupK st → DK l →
      (∀ p ∈ l, (env.lookupFile p.source_path).isSome = true →
        syncReadyB cfg env st p.source_path = true) →
      NodupK (drainFold cfg env l st).1 ∧
      (∀ k, (∀ p ∈ l, k ≠ file_key p.source_path ∧ k ≠ pending_key p.source_path) →
        lookupS k (drainFold cfg env l st).1 = lookupS k st) ∧
      (∀ s d, Effect.copyDirect s d ∈ (drainFold cfg env l st).2 →
        ∃ p, p ∈ l ∧ s = p.source_path ∧
          (env.lookupFile p.source_path).isSome = true) ∧
      (∀ p ∈ l, env.lookupFile p.source_path = none →
        lookupS (pending_key p.source_path) (drainFold cfg env l st).1 = none) ∧
      (∀ p ∈ l, (env.lookupFile p.source_path).isSome = true →
        (∃ s, lookupS (file_key p.source_path) (drainFold cfg env l st).1
            = some (.fileVal s)) ∧
        lookupS (pending_key p.source_path) (drainFold cfg env l st).1 = none) := by
  intro l
  induction l with
  | nil =>
    intro st hN _ _
    refine ⟨hN, fun k _ => rfl, ?_, ?_, ?_⟩ <;> simp [drainFold]
  | cons p rest ih =>
    intro st hN hdk hready
    have hpd : ∀ q ∈ rest, pending_key p.source_path ≠ pending_key q.source_path :=
      (List.pairwise_cons.mp hdk).1
    have hdkr : DK rest := (List.pairwise_cons.mp hdk).2
    by_cases hex : (env.lookupFile p.source_path).isSome = true
    · have hready_p := hready p (by simp) hex
      obtain ⟨tgt, st1, effs1, hsync, hfile1, hpend1⟩ :=
        sync_file_of_ready cfg env st p.source_path hN hready_p
      have hN1 : NodupK st1 := sync_file_nodupK _ _ _ _ _ _ _ hsync hN
      have hframe1 : ∀ k, k ≠ file_key p.source_path →
          k ≠ pending_key p.source_path → lookupS k st1 = lookupS k st :=
        fun k h1 h2 => sync_file_frame _ _ _ _ _ _ _ hsync k h1 h2
      have hready1 : ∀ q ∈ rest, (env.lookupFile q.source_path).isSome = true →
          syncReadyB cfg env st1 q.source_path = true := by
        intro q hq hqex
        rw [syncReadyB_congr cfg env st1 st q.source_path
          (hframe1 (file_key q.source_path)
            (file_key_ne_of_pending_key_ne q.source_path p.source_path
              (Ne.symm (hpd q hq)))
            (file_key_ne_pending_key _ _))]
        exact hready q (List.mem_cons_of_mem p hq) hqex
      obtain ⟨hN2, hframe2, hcopy2, hgone2, hdone2⟩ := ih st1 hN1 hdkr hready1
      have hstep : drainFold cfg env (p :: rest) st =
          ((drainFold cfg env rest st1).1,
            effs1 ++ (drainFold cfg env rest st1).2) := by
        simp only [drainFold, hex, hsync, if_true]
      refine ⟨?_, ?_, ?_, ?_, ?_⟩
      · rw [hstep]; exact hN2
      · intro k hk
        rw [hstep]
        have h2 := hframe2 k (fun q hq => hk q (List.mem_cons_of_mem p hq))
        rw [h2]
        exact hframe1 k (hk p (by simp)).1 (hk p (by simp)).2
      · intro s d hmem
        rw [hstep] at hmem
        rcases List.mem_append.mp hmem with hmem | hmem
        · exact ⟨p, by simp,
            sync_file_copy_src _ _ _ _ _ _ _ hsync s d hmem, hex⟩
        · obtain ⟨q, hq, hs, hqex⟩ := hcopy2 s d hmem
          exact ⟨q, List.mem_cons_of_mem p hq, hs, hqex⟩
      · intro q hq hqnone
        rcases List.mem_cons.mp hq with hq | hq
        · subst hq
          rw [hqnone] at hex
          simp at hex
        · rw [hstep]
          exact hgone2 q hq hqnone
      · intro q hq hqex
        rcases List.mem_cons.mp hq with hq | hq
        · subst hq
          rw [hstep]
          constructor
          · have h2 := hframe2 (file_key q.source_path)
              (fun q2 hq2 =>
                ⟨file_key_ne_of_pending_key_ne q.source_path q2.source_path
                  (hpd q2 hq2), file_key_ne_pending_key _ _⟩)
            rw [h2]
            exact hfile1
          · have h2 := hframe2 (pending_key q.source_path)
              (fun q2 hq2 =>
                ⟨Ne.symm (file_key_ne_pending_key q2.source_path q.source_path),
                hpd q2 hq2⟩)
            rw [h2]
            exact hpend1
        · rw [hstep]
          exact hdone2 q hq hqex
    · have hnone : env.lookupFile p.source_path = none := by
        cases hcase : env.lookupFile p.source_path with
        | none => rfl
        | some e => rw [hcase] at hex; simp at hex
      have hN1 : NodupK (remove_pending_sync st p.source_path) :=
        nodupK_removeS _ st hN
      have hready1 : ∀ q ∈ rest, (env.lookupFile q.source_path).isSome = true →
          syncReadyB cfg env (remove_pending_sync st p.source_path)
            q.source_path = true := by
        intro q hq hqex
        rw [syncReadyB_congr cfg env (remove_pending_sync st p.source_path) st
          q.source_path
          (lookupS_removeS_ne _ _ st (file_key_ne_pending_key _ _))]
        exact hready q (List.mem_cons_of_mem p hq) hqex
      obtain ⟨hN2, hframe2, hcopy2, hgone2, hdone2⟩ :=
        ih (remove_pending_sync st p.source_path) hN1 hdkr hready1
      have hstep : drainFold cfg env (p :: rest) st =
          drainFold cfg env rest (remove_pending_sync st p.source_path) := by
        simp only [drainFold, hex]
        simp
      refine ⟨?_, ?_, ?_, ?_, ?_⟩
      · rw [hstep]; exact hN2
      · intro k hk
        rw [hstep]
        have h2 := hframe2 k (fun q hq => hk q (List.mem_cons_of_mem p hq))
        rw [h2]
        exact lookupS_removeS_ne k _ st (hk p (by simp)).2
      · intro s d hmem
        rw [hstep] at hmem
        obtain ⟨q, hq, hs, hqex⟩ := hcopy2 s d hmem
        exact ⟨q, List.mem_cons_of_mem p hq, hs, hqex⟩
      · intro q hq hqnone
        rcases List.mem_cons.mp hq with hq | hq
        · subst hq
          rw [hstep]
          have h2 := hframe2 (pending_key q.source_path)
            (fun q2 hq2 =>
              ⟨Ne.symm (file_key_ne_pending_key q2.source_path q.source_path),
              hpd q2 hq2⟩)
          rw [h2]
          exact lookupS_removeS_self _ st hN
        · rw [hstep]
          exact hgone2 q hq hqnone
      · intro q hq hqex
        rcases List.mem_cons.mp hq with hq | hq
        · subst hq
          rw [hqex] at hex
          exact absurd rfl hex
        · rw [hstep]
          exact hdone2 q hq hqex

/-! ### Concrete fixtures used by the witnesses -/

def root0 : FPath := ⟨true, ["source"]⟩

def src0 : FPath := ⟨true, ["source", "photo.jpg"]⟩

def entry0 : FileEntry :=
  { size := 4, hash := "h1", magicMime := none,
    contentReadable := true, metaReadable := true }

def fi0 : FileInfo :=
  { path := src0, size := 4, file_type := .image, extension := some "jpg" }

def mnt0 : FPath := ⟨true, ["mnt", "usb1"]⟩

def dcfg0 : DriveConfig :=
  { label := "USB1", target := "images", path := some mnt0, last_seen := none }

def cfg0 : Config := { source := ⟨root0⟩, drives := [("D1", dcfg0)] }

def disk0 : DriveInfo :=
  { name := "USB1", mount_point := mnt0, total_space := 1000,
    available_space := 500, file_system := "vfat", removable := true }

def env0 : Env :=
  { fs := [(src0, entry0)], disks := [disk0],
    mkdirOk := true, copyOk := true, now := 7 }

/-! ### C1 -/

/-- C1: with the target device reachable and no fresh record stored,
`syncOne` on an unchanged file yields `Synced`, a second call yields
`AlreadySynced` without touching the store, and exactly one file record
exists for the path afterwards. -/
theorem claim_C1 (cfg : Config) (env : Env) (st : Store) (src : FPath)
    (entry : FileEntry) (fi : FileInfo) (uuid : String) (dcfg : DriveConfig)
    (b : FPath)
    (hN : NodupK st)
    (h1 : env.lookupFile src = some entry)
    (h2 : get_file_info src entry = .ok fi)
    (h3 : fi.file_type ≠ .unknown)
    (h4 : cfg.find_drive_for_category fi.file_type.as_str = some (uuid, dcfg))
    (h5 : entry.contentReadable = true)
    (h6 : is_file_synced st src entry.hash = .ok false)
    (h7 : drive_connected_of env.disks dcfg = true)
    (h8 : target_base_of env.disks dcfg = .ok b)
    (h9 : env.mkdirOk = true) (h10 : env.copyOk = true) :
    ∃ tgt st1 effs,
      sync_file cfg env st src = .ok (.synced tgt, st1, effs) ∧
      sync_file cfg env st1 src = .ok (.alreadySynced, st1, []) ∧
      countKey (file_key src) st1 = 1 := by
  have heval := sync_file_reachable cfg env st src entry fi uuid dcfg b
    h1 h2 h3 h4 h5 h6 h7 h8 h9 h10
  refine ⟨targetOf cfg b fi.file_type.as_str src,
    remove_pending_sync
      (save_file_state st (fstateOf cfg env b src entry fi uuid)) src,
    _, heval, ?_, ?_⟩
  · have hlook : lookupS (file_key src)
        (remove_pending_sync
          (save_file_state st (fstateOf cfg env b src entry fi uuid)) src)
        = some (.fileVal (fstateOf cfg env b src entry fi uuid)) := by
      unfold remove_pending_sync save_file_state
      rw [lookupS_removeS_ne _ _ _ (file_key_ne_pending_key src src)]
      simpa [fstateOf] using lookupS_insertS_self (file_key src) _ st
    have hsync2 : is_file_synced
        (remove_pending_sync
          (save_file_state st (fstateOf cfg env b src entry fi uuid)) src)
        src entry.hash = .ok true :=
      (is_file_synced_true_iff _ src entry.hash).mpr
        ⟨fstateOf cfg env b src entry fi uuid, hlook, rfl⟩
    exact sync_file_already cfg env _ src entry fi uuid dcfg
      h1 h2 h3 h4 h5 hsync2
  · unfold remove_pending_sync save_file_state
    rw [countKey_removeS_ne _ _ _ (file_key_ne_pending_key src src)]
    simpa [fstateOf] using
      countKey_insertS_self (file_key src) _ st hN

/-- Witness for C1 at a concrete configuration, environment and file. -/
theorem claim_C1_witness :
    ∃ tgt st1 effs,
      sync_file cfg0 env0 [] src0 = .ok (.synced tgt, st1, effs) ∧
      sync_file cfg0 env0 st1 src0 = .ok (.alreadySynced, st1, []) ∧
      countKey (file_key src0) st1 = 1 :=
  claim_C1 cfg0 env0 [] src0 entry0 fi0 "D1" dcfg0 mnt0
    (by decide) rfl rfl (by decide) rfl rfl rfl rfl rfl rfl rfl

/-! ### C2 -/

/-- C2: for a readable, classifiable, routed file, `syncOne` returns
`AlreadySynced` (with no copy and no store write) exactly when a file
record with the current content hash exists; after a content change the
next `syncOne` re-copies and overwrites the record's hash. -/
theorem claim_C2 (cfg : Config) (env : Env) (st : Store) (src : FPath)
    (entry : FileEntry) (fi : FileInfo) (uuid : String) (dcfg : DriveConfig)
    (h1 : env.lookupFile src = some entry)
    (h2 : get_file_info src entry = .ok fi)
    (h3 : fi.file_type ≠ .unknown)
    (h4 : cfg.find_drive_for_category fi.file_type.as_str = some (uuid, dcfg))
    (h5 : entry.contentReadable = true) :
    (∀ st' effs, sync_file cfg env st src = .ok (.alreadySynced, st', effs) →
      st' = st ∧ effs = [] ∧
        ∃ s, lookupS (file_key src) st = some (.fileVal s) ∧
          s.hash = entry.hash) ∧
    (is_file_synced st src entry.hash = .ok true →
      sync_file cfg env st src = .ok (.alreadySynced, st, [])) ∧
    (∀ old b, lookupS (file_key src) st = some (.fileVal old) →
      old.hash ≠ entry.hash →
      drive_connected_of env.disks dcfg = true →
      target_base_of env.disks dcfg = .ok b →
      env.mkdirOk = true → env.copyOk = true →
      ∃ tgt st1 effs,
        sync_file cfg env st src = .ok (.synced tgt, st1, effs) ∧
        Effect.copyDirect src tgt ∈ effs ∧
        ∃ s, lookupS (file_key src) st1 = some (.fileVal s) ∧
          s.hash = entry.hash) := by
  refine ⟨?_, ?_, ?_⟩
  · intro st' effs hres
    obtain ⟨hst, heffs, entry2, hentry2, hsync2⟩ := sync_file_already_inv
      cfg env st src st' effs hres
    rw [h1] at hentry2
    simp only [Option.some.injEq] at hentry2
    subst hentry2
    obtain ⟨s, hls, hhs⟩ := (is_file_synced_true_iff st src entry.hash).mp hsync2
    exact ⟨hst, heffs, s, hls, hhs⟩
  · intro hsy
    exact sync_file_already cfg env st src entry fi uuid dcfg h1 h2 h3 h4 h5 hsy
  · intro old b hold hhash hconn hb hmk hcp
    have h6 : is_file_synced st src entry.hash = .ok false :=
      (is_file_synced_false_iff st src entry.hash).mpr (Or.inr ⟨old, hold, hhash⟩)
    have heval := sync_file_reachable cfg env st src entry fi uuid dcfg b
      h1 h2 h3 h4 h5 h6 hconn hb hmk hcp
    refine ⟨targetOf cfg b fi.file_type.as_str src, _, _, heval, by simp,
      fstateOf cfg env b src entry fi uuid, ?_, rfl⟩
    unfold remove_pending_sync save_file_state
    rw [lookupS_removeS_ne _ _ _ (file_key_ne_pending_key src src)]
    simpa [fstateOf] using lookupS_insertS_self (file_key src) _ st

def oldFs0 : FileState :=
  { source_path := src0, hash := "h0", size := 4, last_synced := 1,
    target_drive := "D1",
    target_path := ⟨true, ["mnt", "usb1", "images", "photo.jpg"]⟩,
    file_category := "images" }

def stOld0 : Store := [(file_key src0, .fileVal oldFs0)]

/-- Witness for C2: after the content hash changes from `"h0"` to `"h1"`,
the next `sync_file` re-copies and overwrites the stored hash. -/
theorem claim_C2_witness :
    ∃ tgt st1 effs,
      sync_file cfg0 env0 stOld0 src0 = .ok (.synced tgt, st1, effs) ∧
      Effect.copyDirect src0 tgt ∈ effs ∧
      ∃ s, lookupS (file_key src0) st1 = some (.fileVal s) ∧
        s.hash = entry0.hash :=
  (claim_C2 cfg0 env0 stOld0 src0 entry0 fi0 "D1" dcfg0
      rfl rfl (by decide) rfl rfl).2.2 oldFs0 mnt0 rfl (by decide) rfl rfl rfl rfl

/-! ### C3 -/

/-- Modelled from the spec's words (step 6 of `syncOne`) as the claim
reads them: with a fixed mount path, reachable iff a live device reports
exactly that mount path; otherwise reachable iff some live device's LABEL
contains the route's label case-insensitively (no other attribute). -/
def reachablePerClaim (dcfg : DriveConfig) (disks : List DriveInfo) : Bool :=
  match dcfg.path with
  | some p => disks.any fun d => decide (d.mount_point = p)
  | none => disks.any fun d => containsStr (lowerStr d.name) (lowerStr dcfg.label)

/-- Modelled from the spec's words as amended by the code: the label
match also accepts a device whose mount-point string contains the label. -/
def reachablePerClaimAmended (dcfg : DriveConfig) (disks : List DriveInfo) : Bool :=
  match dcfg.path with
  | some p => disks.any fun d => decide (d.mount_point = p)
  | none => disks.any fun d =>
      containsStr (lowerStr d.name) (lowerStr dcfg.label)
        || containsStr (lowerStr d.mount_point.display) (lowerStr dcfg.label)

def dcfgX : DriveConfig :=
  { label := "photos", target := "images", path := none, last_seen := none }

def diskX : DriveInfo :=
  { name := "data", mount_point := ⟨true, ["media", "photos"]⟩,
    total_space := 1000, available_space := 500, file_system := "ext4",
    removable := true }

/-- Counterexample to C3: a device whose label does not contain the
route's label is still treated as reachable because its MOUNT PATH
contains the label — the mount path does participate in the label match. -/
theorem claim_C3_counterexample :
    drive_connected_of [diskX] dcfgX = true ∧
      reachablePerClaim dcfgX [diskX] = false := by
  constructor
  · rfl
  · rfl

theorem find_label_isSome (ll : String) (disks : List DriveInfo) :
    (disks.find? (labelMatches ll)).isSome = disks.any (labelMatches ll) := by
  induction disks with
  | nil => rfl
  | cons d t ih =>
    cases hd : labelMatches ll d
    · simp [List.find?, List.any_cons, hd, ih]
    · simp [List.find?, List.any_cons, hd]

/-- C3 (amended): the reachability decision is exactly the fixed-mount
rule when a path is configured, and otherwise the case-insensitive
substring test against the device's label OR its mount-point string. -/
theorem claim_C3 (dcfg : DriveConfig) (disks : List DriveInfo) :
    drive_connected_of disks dcfg = reachablePerClaimAmended dcfg disks := by
  unfold drive_connected_of reachablePerClaimAmended
  cases hp : dcfg.path with
  | some p => rfl
  | none =>
    unfold find_drive_by_label
    rw [find_label_isSome]
    rfl

/-! ### C4 -/

/-- C4: with the drive unreachable, `syncOne` queues a pending record
under the path's own key; a repeated call re-upserts the same key, and
after each call exactly one pending record exists for the path. -/
theorem claim_C4 (cfg : Config) (env : Env) (st : Store) (src : FPath)
    (entry : FileEntry) (fi : FileInfo) (uuid : String) (dcfg : DriveConfig)
    (hN : NodupK st)
    (h1 : env.lookupFile src = some entry)
    (h2 : get_file_info src entry = .ok fi)
    (h3 : fi.file_type ≠ .unknown)
    (h4 : cfg.find_drive_for_category fi.file_type.as_str = some (uuid, dcfg))
    (h5 : entry.contentReadable = true)
    (h6 : is_file_synced st src entry.hash = .ok false)
    (h7 : drive_connected_of env.disks dcfg = false) :
    ∃ pend st1,
      PendingSync.source_path pend = src ∧
      sync_file cfg env st src = .ok (.pending dcfg.label, st1, []) ∧
      st1 = add_pending_sync st pend ∧
      countKey (pending_key src) st1 = 1 ∧
      sync_file cfg env st1 src
        = .ok (.pending dcfg.label, add_pending_sync st1 pend, []) ∧
      countKey (pending_key src) (add_pending_sync st1 pend) = 1 := by
  have heval := sync_file_pending cfg env st src entry fi uuid dcfg
    h1 h2 h3 h4 h5 h6 h7
  refine ⟨⟨src, fi.file_type.as_str, uuid, entry.hash, fi.size, env.now⟩,
    _, rfl, heval, rfl, ?_, ?_, ?_⟩
  · unfold add_pending_sync
    exact countKey_insertS_self (pending_key src) _ st hN
  · have h6b : is_file_synced (add_pending_sync st
        ⟨src, fi.file_type.as_str, uuid, entry.hash, fi.size, env.now⟩)
        src entry.hash = .ok false := by
      rw [is_file_synced_congr _ st src entry.hash ?_]
      · exact h6
      · unfold add_pending_sync
        exact lookupS_insertS_ne _ _ _ st (file_key_ne_pending_key src src)
    exact sync_file_pending cfg env _ src entry fi uuid dcfg
      h1 h2 h3 h4 h5 h6b h7
  · unfold add_pending_sync
    exact countKey_insertS_self (pending_key src) _ _
      (nodupK_insertS _ _ st hN)

def dcfgP : DriveConfig :=
  { label := "USB9", target := "images", path := some ⟨true, ["mnt", "usb9"]⟩,
    last_seen := none }

def cfgP : Config := { source := ⟨root0⟩, drives := [("D9", dcfgP)] }

/-- Witness for C4: the configured mount `/mnt/usb9` is not among the live
devices, so two `sync_file` calls queue one pending record for the path. -/
theorem claim_C4_witness :
    ∃ pend st1,
      PendingSync.source_path pend = src0 ∧
      sync_file cfgP env0 [] src0 = .ok (.pending dcfgP.label, st1, []) ∧
      st1 = add_pending_sync [] pend ∧
      countKey (pending_key src0) st1 = 1 ∧
      sync_file cfgP env0 st1 src0
        = .ok (.pending dcfgP.label, add_pending_sync st1 pend, []) ∧
      countKey (pending_key src0) (add_pending_sync st1 pend) = 1 :=
  claim_C4 cfgP env0 [] src0 entry0 fi0 "D9" dcfgP
    (by decide) rfl rfl (by decide) rfl rfl rfl rfl

/-! ### C5 -/

/-- C5: `drainPending(deviceId)` lists the pending records of the device
and returns how many it listed; every listed record whose source is gone
has its pending record removed and is never copied; every listed record
whose source still exists (and is ready to sync, the device now being
reachable) ends with a file record stored and its pending record gone. -/
theorem claim_C5 (cfg : Config) (env : Env) (st : Store) (uuid : String)
    (l : List PendingSync)
    (hN : NodupK st) (hwf : wfStoreB st = true)
    (hl : get_pending_syncs st uuid = .ok l)
    (hready : ∀ p ∈ l, (env.lookupFile p.source_path).isSome = true →
      syncReadyB cfg env st p.source_path = true) :
    ∃ st' effs,
      process_pending_syncs cfg env st uuid = .ok (l.length, st', effs) ∧
      (∀ p ∈ l, env.lookupFile p.source_path = none →
        lookupS (pending_key p.source_path) st' = none ∧
        ∀ d, Effect.copyDirect p.source_path d ∉ effs) ∧
      (∀ p ∈ l, (env.lookupFile p.source_path).isSome = true →
        (∃ s, lookupS (file_key p.source_path) st' = some (.fileVal s)) ∧
        lookupS (pending_key p.source_path) st' = none) := by
  have hdk := get_pending_syncs_DK st uuid l hN hwf hl
  obtain ⟨hN2, hframe, hcopy, hgone, hdone⟩ :=
    drainFold_spec cfg env l st hN hdk hready
  refine ⟨(drainFold cfg env l st).1, (drainFold cfg env l st).2, ?_, ?_, hdone⟩
  · unfold process_pending_syncs
    rw [hl]
  · intro p hp hnone
    refine ⟨hgone p hp hnone, ?_⟩
    intro d hmem
    obtain ⟨q, hq, hs, hqex⟩ := hcopy p.source_path d hmem
    rw [hs] at hnone
    rw [hnone] at hqex
    simp at hqex

def pendA : PendingSync :=
  { source_path := src0, file_category := "images", target_drive := "D1",
    hash := "h1", size := 4, created_at := 3 }

def srcGone : FPath := ⟨true, ["source", "gone.jpg"]⟩

def pendB : PendingSync :=
  { source_path := srcGone, file_category := "images", target_drive := "D1",
    hash := "h2", size := 5, created_at := 3 }

def stW : Store :=
  [(pending_key src0, .pendingVal pendA), (pending_key srcGone, .pendingVal pendB)]

/-- Witness for C5: two pending records for drive `D1`; the first source
still exists and its device is reachable, the second source is gone. -/
theorem claim_C5_witness :
    ∃ st' effs,
      process_pending_syncs cfg0 env0 stW "D1" = .ok (2, st', effs) ∧
      lookupS (pending_key srcGone) st' = none ∧
      (∃ s, lookupS (file_key src0) st' = some (.fileVal s)) ∧
      lookupS (pending_key src0) st' = none := by
  obtain ⟨st', effs, hrun, hgone, hdone⟩ :=
    claim_C5 cfg0 env0 stW "D1" [pendA, pendB] (by decide) (by decide) rfl
      (by decide)
  obtain ⟨hfileA, hpendA⟩ := hdone pendA (by simp) rfl
  obtain ⟨hpendB, _⟩ := hgone pendB (by simp) rfl
  exact ⟨st', effs, hrun, hpendB, hfileA, hpendA⟩

/-! ### C6 -/

/-- Counterexample to C6: a single corrupt stored value makes each scan
abort with a decode error instead of skipping the bad record and
returning the remaining listing. -/
theorem claim_C6_counterexample :
    get_pending_syncs [("pending:bad", .corrupt)] "D1"
      = .error "failed to decode PendingSync" ∧
    get_all_file_states [("file:bad", .corrupt)]
      = .error "failed to decode FileState" ∧
    get_sync_stats [("file:bad", .corrupt)]
      = .error "failed to decode FileState" ∧
    get_pending_syncs [("pending:bad", .corrupt)] "D1" ≠ .ok [] := by
  refine ⟨rfl, rfl, rfl, ?_⟩
  intro h
  exact Except.noConfusion (h.symm.trans
    (rfl : get_pending_syncs [("pending:bad", .corrupt)] "D1"
      = .error "failed to decode PendingSync"))

/-- C6 (amended): a stored value that fails to decode during a scan
aborts the whole listing with an error — the pending listings and the
aggregate stats when a `pending:` value is corrupt, and the stats and the
file-record listing when a `file:` value is corrupt. -/
theorem claim_C6 (st : Store) (uuid : String) :
    (hasBadPending (scanPre "pending:" st) = true →
      (∃ e, get_pending_syncs st uuid = .error e) ∧
      (∃ e, get_all_pending_syncs st = .error e) ∧
      (∃ e, get_sync_stats st = .error e)) ∧
    (hasBadFile (scanPre "file:" st) = true →
      (∃ e, get_sync_stats st = .error e) ∧
      (∃ e, get_all_file_states st = .error e)) := by
  constructor
  · intro hbad
    obtain ⟨e, he⟩ := collectPendings_error_of_bad _ hbad
    refine ⟨⟨e, ?_⟩, ⟨e, ?_⟩, ?_⟩
    · unfold get_pending_syncs
      rw [he]
    · unfold get_all_pending_syncs
      rw [he]
    · unfold get_sync_stats
      cases hs : statsFold (scanPre "file:" st)
          { total_files := 0, total_size := 0, pending_syncs := 0,
            by_category := [] } with
      | error e2 => exact ⟨e2, rfl⟩
      | ok acc =>
        refine ⟨e, ?_⟩
        unfold get_all_pending_syncs
        rw [he]
  · intro hbad
    obtain ⟨e, he⟩ := statsFold_error_of_bad _ hbad
      { total_files := 0, total_size := 0, pending_syncs := 0, by_category := [] }
    obtain ⟨e2, he2⟩ := collectFileStates_error_of_bad _ hbad
    refine ⟨⟨e, ?_⟩, ⟨e2, ?_⟩⟩
    · unfold get_sync_stats
      rw [he]
    · unfold get_all_file_states
      rw [he2]

def stBad : Store := [("file:bad", .corrupt), ("pending:bad", .corrupt)]

/-- Witness for C6 (amended) at a store holding one corrupt value of each
kind. -/
theorem claim_C6_witness :
    (∃ e, get_pending_syncs stBad "D1" = .error e) ∧
      (∃ e, get_sync_stats stBad = .error e) ∧
      (∃ e, get_all_file_states stBad = .error e) :=
  ⟨((claim_C6 stBad "D1").1 (by decide)).1,
    ((claim_C6 stBad "D1").2 (by decide)).1,
    ((claim_C6 stBad "D1").2 (by decide)).2⟩

/-! ### C7 -/

def treeBad : FsEntry :=
  .dirE "source" true [(true, .fileE "a.jpg"), (false, .fileE "b.jpg")]

/-- Counterexample to C7: one unreadable directory entry aborts the whole
batch before any file is processed — `sync_all` returns an error instead
of a summary, so no "skip with a warning and continue" happens. -/
theorem claim_C7_counterexample :
    sync_all cfg0 env0 [] treeBad = .error "Failed to read entry" ∧
      collect_files root0 treeBad = .error "Failed to read entry" := by
  have hcoll : collect_files root0 treeBad = .error "Failed to read entry" := by
    simp [collect_files, treeBad, collectEntries]
  constructor
  · unfold sync_all
    rw [show cfg0.source.path = root0 from rfl, hcoll]
  · exact hcoll

/-- C7 (amended): when the recursive enumeration reads every entry
successfully, `sync_all` returns a summary and its five counters sum to
the number of files discovered (per-file `syncOne` failures are folded
into `failed` without aborting); when any entry or subdirectory is
unreadable, the enumeration error aborts `sync_all` with that error. -/
theorem claim_C7 (cfg : Config) (env : Env) (st : Store) (tree : FsEntry) :
    match collect_files cfg.source.path tree with
    | .ok files => ∃ sum st', sync_all cfg env st tree = .ok (sum, st') ∧
        SyncSummary.total sum = files.length
    | .error e => sync_all cfg env st tree = .error e := by
  cases h : collect_files cfg.source.path tree with
  | ok files =>
    refine ⟨(syncFold cfg env files SyncSummary.zero st).1,
      (syncFold cfg env files SyncSummary.zero st).2, ?_, ?_⟩
    · unfold sync_all
      rw [h]
    · rw [syncFold_total cfg env files SyncSummary.zero st]
      simp [SyncSummary.zero, SyncSummary.total]
  | error e =>
    unfold sync_all
    rw [h]

/-! ### C8 -/

/-- Modelled from the claim's words: the destination is
`<deviceMountPath>/<category>/<relative path>`, with the full source path
as the final part when the source is not under the configured root. -/
def destPerSpec (base : FPath) (category : String) (src root : FPath) : FPath :=
  ⟨base.abs,
    base.comps ++ category :: (((stripPre src root).map FPath.comps).getD src.comps)⟩

def src8 : FPath := ⟨true, ["elsewhere", "f.jpg"]⟩

def env8 : Env :=
  { fs := [(src8, entry0)], disks := [disk0],
    mkdirOk := true, copyOk := true, now := 7 }

def fstate8 : FileState :=
  { source_path := src8, hash := "h1", size := 4, last_synced := 7,
    target_drive := "D1", target_path := src8, file_category := "images" }

/-- Counterexample to C8: for an absolute source outside the source root,
Rust's `join` lets the absolute path replace the whole base, so the
actual destination is the source path itself, not
`<mount>/<category>/<full source path>`. -/
theorem claim_C8_counterexample :
    sync_file cfg0 env8 [] src8
      = .ok (.synced src8, [(file_key src8, .fileVal fstate8)],
          [.createDirAll ⟨true, ["elsewhere"]⟩, .copyDirect src8 src8]) ∧
      src8 ≠ destPerSpec mnt0 "images" src8 root0 := by
  constructor
  · rfl
  · decide

/-- C8 (amended): for every reachable route, the destination is
`<base>/<category>/<relative path>` when the source strips against the
configured root; when it does not strip, an absolute source path replaces
the joined base entirely (the destination equals the source path), while
a relative one is appended in full after the category. -/
theorem claim_C8 (cfg : Config) (env : Env) (st : Store) (src : FPath)
    (entry : FileEntry) (fi : FileInfo) (uuid : String) (dcfg : DriveConfig)
    (b : FPath)
    (h1 : env.lookupFile src = some entry)
    (h2 : get_file_info src entry = .ok fi)
    (h3 : fi.file_type ≠ .unknown)
    (h4 : cfg.find_drive_for_category fi.file_type.as_str = some (uuid, dcfg))
    (h5 : entry.contentReadable = true)
    (h6 : is_file_synced st src entry.hash = .ok false)
    (h7 : drive_connected_of env.disks dcfg = true)
    (h8 : target_base_of env.disks dcfg = .ok b)
    (h9 : env.mkdirOk = true) (h10 : env.copyOk = true) :
    ∃ st1 effs,
      sync_file cfg env st src
        = .ok (.synced (targetOf cfg b fi.file_type.as_str src), st1, effs) ∧
      (∀ rel, stripPre src cfg.source.path = some rel →
        targetOf cfg b fi.file_type.as_str src
          = ⟨b.abs, b.comps ++ fi.file_type.as_str :: rel.comps⟩) ∧
      (stripPre src cfg.source.path = none → src.abs = true →
        targetOf cfg b fi.file_type.as_str src = src) ∧
      (stripPre src cfg.source.path = none → src.abs = false →
        targetOf cfg b fi.file_type.as_str src
          = ⟨b.abs, b.comps ++ fi.file_type.as_str :: src.comps⟩) := by
  refine ⟨_, _,
    sync_file_reachable cfg env st src entry fi uuid dcfg b
      h1 h2 h3 h4 h5 h6 h7 h8 h9 h10, ?_, ?_, ?_⟩
  · intro rel hrel
    have hrelabs : rel.abs = false := by
      rcases rel with ⟨ra, rc⟩
      unfold stripPre at hrel
      split at hrel
      · simp only [Option.some.injEq, FPath.mk.injEq] at hrel
        exact hrel.1.symm
      · simp at hrel
    simp [targetOf, FPath.joinS, FPath.join, hrel, hrelabs]
  · intro hrel habs
    simp [targetOf, FPath.joinS, FPath.join, hrel, habs]
  · intro hrel habs
    simp [targetOf, FPath.joinS, FPath.join, hrel, habs]

/-- Witness for C8 at a source under the root: the destination is
`/mnt/usb1/images/photo.jpg`. -/
theorem claim_C8_witness :
    targetOf cfg0 mnt0 "images" src0
        = ⟨true, ["mnt", "usb1", "images", "photo.jpg"]⟩ ∧
      ∃ st1 effs, sync_file cfg0 env0 [] src0
        = .ok (.synced (targetOf cfg0 mnt0 "images" src0), st1, effs) := by
  obtain ⟨st1, effs, hrun, hsome, _, _⟩ :=
    claim_C8 cfg0 env0 [] src0 entry0 fi0 "D1" dcfg0 mnt0
      rfl rfl (by decide) rfl rfl rfl rfl rfl rfl rfl
  refine ⟨?_, st1, effs, hrun⟩
  exact hsome ⟨false, ["photo.jpg"]⟩ rfl

/-! ### C9 -/

def tgt0 : FPath := ⟨true, ["mnt", "usb1", "images", "photo.jpg"]⟩

def fstate0 : FileState :=
  { source_path := src0, hash := "h1", size := 4, last_synced := 7,
    target_drive := "D1", target_path := tgt0, file_category := "images" }

/-- Counterexample to C9: the full I/O trace of a successful copy is a
`create_dir_all` followed by one direct copy to the final destination —
no temporary name, no rename, no size verification. -/
theorem claim_C9_counterexample :
    sync_file cfg0 env0 [] src0
      = .ok (.synced tgt0, [(file_key src0, .fileVal fstate0)],
          [.createDirAll ⟨true, ["mnt", "usb1", "images"]⟩,
            .copyDirect src0 tgt0]) := rfl

/-- C9 (amended): `sync_file` streams directly to the final destination
path: its I/O trace never contains a copy-to-temporary or a rename, and
every `Synced` outcome carries a direct copy to the returned target, so a
failed copy can leave a partial file at the destination path. -/
theorem claim_C9 (cfg : Config) (env : Env) (st : Store) (src : FPath)
    (r : SyncResult) (st' : Store) (effs : List Effect)
    (h : sync_file cfg env st src = .ok (r, st', effs)) :
    (∀ a c, Effect.copyTmp a c ∉ effs ∧ Effect.renameTo a c ∉ effs) ∧
    (∀ t, r = .synced t → Effect.copyDirect src t ∈ effs) :=
  sync_file_direct_only cfg env st src r st' effs h

/-- Witness for C9 on the concrete run of the counterexample trace. -/
theorem claim_C9_witness :
    Effect.copyTmp src0 tgt0
        ∉ [Effect.createDirAll ⟨true, ["mnt", "usb1", "images"]⟩,
            Effect.copyDirect src0 tgt0] ∧
      Effect.copyDirect src0 tgt0
        ∈ [Effect.createDirAll ⟨true, ["mnt", "usb1", "images"]⟩,
            Effect.copyDirect src0 tgt0] := by
  have h := claim_C9 cfg0 env0 [] src0 (.synced tgt0)
    [(file_key src0, .fileVal fstate0)]
    [.createDirAll ⟨true, ["mnt", "usb1", "images"]⟩, .copyDirect src0 tgt0]
    rfl
  exact ⟨(h.1 src0 tgt0).1, h.2 tgt0 rfl⟩

/-! ### C10 -/

/-- C10: classification never fails for a file whose metadata is readable
(the error chain is absorbed into `Unknown`), and a file with no
recognized magic bytes and no extension is classified `Unknown`, so
`syncOne` returns `Skipped("Unknown file type")` with no store write. -/
theorem claim_C10 (cfg : Config) (env : Env) (st : Store) (src : FPath)
    (entry : FileEntry)
    (h1 : env.lookupFile src = some entry)
    (hm : entry.metaReadable = true)
    (hext : extOfPath src = none)
    (hmagic : ∀ m, entry.magicMime = some m → mimeToType m = none) :
    (∀ (q : FPath) (e2 : FileEntry), e2.metaReadable = true →
      ∃ fi2, get_file_info q e2 = .ok fi2) ∧
    sync_file cfg env st src = .ok (.skipped "Unknown file type", st, []) := by
  constructor
  · intro q e2 he2
    refine ⟨⟨q, e2.size,
      (classify_by_content q e2).toOption.getD
        ((classify_by_extension q).toOption.getD .unknown),
      (extOfPath q).map lowerStr⟩, ?_⟩
    simp [get_file_info, he2]
  · have hext2 : classify_by_extension src = .error "No file extension" := by
      simp [classify_by_extension, hext]
    have hcontent : (classify_by_content src entry).toOption = none := by
      unfold classify_by_content
      cases hcr : entry.contentReadable with
      | false => simp [Except.toOption]
      | true =>
        cases hmm : entry.magicMime with
        | none => simp [hext2, Except.toOption]
        | some m => simp [hmagic m hmm, hext2, Except.toOption]
    have hfi : get_file_info src entry
        = .ok ⟨src, entry.size, .unknown, none⟩ := by
      unfold get_file_info
      rw [hcontent, hext2, hext]
      simp [hm, Except.toOption]
    exact sync_file_skip_unknown cfg env st src entry _ h1 hfi rfl

def srcU : FPath := ⟨true, ["source", "README"]⟩

def entryU : FileEntry :=
  { size := 1, hash := "hu", magicMime := none,
    contentReadable := true, metaReadable := true }

def envU : Env :=
  { fs := [(srcU, entryU)], disks := [disk0],
    mkdirOk := true, copyOk := true, now := 7 }

/-- Witness for C10: a readable file with no extension and no recognized
magic bytes is skipped as unknown, leaving the store untouched. -/
theorem claim_C10_witness :
    sync_file cfg0 envU [] srcU = .ok (.skipped "Unknown file type", [], []) :=
  (claim_C10 cfg0 envU [] srcU entryU rfl rfl rfl
    (fun m hmm => by simp [entryU] at hmm)).2
